import Mathlib

/-!
# CPPSnake: the game-state engine of `src/main.cpp`

A shallow embedding of the snake game: the `Snake` class (`move`,
`checkCollision`), the `Apple` class, the `ScoreManager` helpers and the body
of the main loop (event handling followed by one simulation tick).

Modelling conventions.

* C++ `int` values are modelled in `Int`.  Signed overflow is undefined in C++
  and is never approached by a running game: coordinates stay within `[-1, 15]`.
* `std::vector<SnakeSegment>` is a `List SnakeSegment`, head of the snake first.
  Reading `segments[0]` or `segments.back()` of an empty vector is undefined; the
  embedding returns `none` there.
* `rand()` is an explicit argument: every call of `Apple::randomize` receives the
  two values that the two calls of `rand()` return.
* The file `highscore.txt` is explicit state: `none` when the file is absent,
  `some v` when it holds the integer `v`.  Writes succeed.
* SDL rendering, the window title and the delay are outputs only and are left out.
-/

namespace CPPSnake

/-! ## Data model -/

/-- Movement directions of the snake (`enum class Direction`). -/
inductive Direction where
  | NONE
  | UP
  | DOWN
  | LEFT
  | RIGHT
  deriving DecidableEq

/-- One cell of the snake body (`class SnakeSegment`). -/
structure SnakeSegment where
  x : Int
  y : Int
  deriving DecidableEq

/-- State of the snake (`class Snake`). -/
structure Snake where
  segments : List SnakeSegment
  direction : Direction
  nextDirection : Direction
  hasStarted : Bool
  score : Int
  deriving DecidableEq

/-- The food (`class Apple`). -/
structure Apple where
  x : Int
  y : Int
  deriving DecidableEq

/-- The keys the main loop distinguishes in `event.key.keysym.sym`. -/
inductive Key where
  | SDLK_UP
  | SDLK_DOWN
  | SDLK_LEFT
  | SDLK_RIGHT
  | other
  deriving DecidableEq

/-- The events the main loop distinguishes in `event.type`. -/
inductive Event where
  | SDL_QUIT
  | SDL_KEYDOWN (sym : Key)
  | other
  deriving DecidableEq

/-- The variables of `main` that the game logic reads and writes, together with
the content of `highscore.txt`. -/
structure Game where
  snake : Snake
  apple : Apple
  running : Bool
  currentHighScore : Int
  highscoreFile : Option Int
  deriving DecidableEq

/-! ## Snake -/

/-- Constructor `Snake::Snake()`: one segment at (7,7), no direction, not started. -/
def Snake.new : Snake :=
  { segments := [SnakeSegment.mk 7 7]
    direction := Direction.NONE
    nextDirection := Direction.NONE
    hasStarted := false
    score := 0 }

/-- The `switch (direction)` of `Snake::move`: the head coordinates after one step. -/
def stepHead (d : Direction) (newX newY : Int) : SnakeSegment :=
  match d with
  | Direction.UP => SnakeSegment.mk newX (newY - 1)
  | Direction.DOWN => SnakeSegment.mk newX (newY + 1)
  | Direction.LEFT => SnakeSegment.mk (newX - 1) newY
  | Direction.RIGHT => SnakeSegment.mk (newX + 1) newY
  | Direction.NONE => SnakeSegment.mk newX newY

/-- The buffered direction change at the start of `Snake::move`. -/
def Snake.applyNextDirection (s : Snake) : Snake :=
  if s.nextDirection ≠ Direction.NONE then
    { s with direction := s.nextDirection, nextDirection := Direction.NONE }
  else s

/-- Method `Snake::move`.  Returns `none` where the C++ reads `segments[0]` of an
empty vector. -/
def Snake.move (s : Snake) : Option Snake :=
  if s.hasStarted = false ∨ s.direction = Direction.NONE then
    some s
  else
    let s1 := s.applyNextDirection
    match s1.segments with
    | [] => none
    | head :: _ =>
      some { s1 with
        segments := (stepHead s1.direction head.x head.y :: s1.segments).dropLast }

/-- The self-collision loop of `Snake::checkCollision`, run over the segments at
indices 1, 2, ... in order. -/
def selfCollision (head : SnakeSegment) : List SnakeSegment → Bool
  | [] => false
  | seg :: rest =>
    if head.x = seg.x ∧ head.y = seg.y then true else selfCollision head rest

/-- Method `Snake::checkCollision`, in state-passing form: the answer and the
snake after the call.  Returns `none` where the C++ reads `segments[0]` of an
empty vector. -/
def Snake.checkCollision (s : Snake) : Option (Bool × Snake) :=
  match s.segments with
  | [] => none
  | head :: rest =>
    if head.x < 0 ∨ head.x ≥ 15 ∨ head.y < 0 ∨ head.y ≥ 15 then
      some (true, s)
    else if selfCollision head rest = true then
      some (true, s)
    else
      some (false, s)

/-! ## Apple -/

/-- Method `Apple::randomize`; `r1` and `r2` are the values of the two `rand()` calls. -/
def Apple.randomize (r1 r2 : Nat) : Apple :=
  { x := Int.ofNat (r1 % 15), y := Int.ofNat (r2 % 15) }

/-! ## ScoreManager -/

/-- Function `ScoreManager::getHighScore`: 0 when the file cannot be opened. -/
def getHighScore (file : Option Int) : Int :=
  match file with
  | none => 0
  | some highScore => highScore

/-- Function `ScoreManager::saveHighScore`: the content of the file after the call. -/
def saveHighScore (score : Int) (file : Option Int) : Option Int :=
  let currentHigh := getHighScore file
  if score > currentHigh then some score else file

/-! ## Main loop -/

/-- The `switch (event.key.keysym.sym)` of the main loop. -/
def handleKey (snake : Snake) (sym : Key) : Snake :=
  match sym with
  | Key.SDLK_UP =>
    if snake.direction ≠ Direction.DOWN then
      if snake.hasStarted = false then
        { snake with direction := Direction.UP, hasStarted := true }
      else
        { snake with nextDirection := Direction.UP }
    else snake
  | Key.SDLK_DOWN =>
    if snake.direction ≠ Direction.UP then
      if snake.hasStarted = false then
        { snake with direction := Direction.DOWN, hasStarted := true }
      else
        { snake with nextDirection := Direction.DOWN }
    else snake
  | Key.SDLK_LEFT =>
    if snake.direction ≠ Direction.RIGHT then
      if snake.hasStarted = false then
        { snake with direction := Direction.LEFT, hasStarted := true }
      else
        { snake with nextDirection := Direction.LEFT }
    else snake
  | Key.SDLK_RIGHT =>
    if snake.direction ≠ Direction.LEFT then
      if snake.hasStarted = false then
        { snake with direction := Direction.RIGHT, hasStarted := true }
      else
        { snake with nextDirection := Direction.RIGHT }
    else snake
  | Key.other => snake

/-- One pass of the body of `while (SDL_PollEvent(&event))`. -/
def handleEvent (g : Game) (event : Event) : Game :=
  match event with
  | Event.SDL_QUIT => { g with running := false }
  | Event.SDL_KEYDOWN sym => { g with snake := handleKey g.snake sym }
  | Event.other => g

/-- The inner event loop, over the events pending at this iteration. -/
def pollEvents (g : Game) (events : List Event) : Game :=
  events.foldl handleEvent g

/-- The apple check of the main loop (the `if` on the head and the apple), on a
snake that passed the collision check. -/
def appleCheck (g : Game) (snake : Snake) (r1 r2 : Nat) : Option Game :=
  match snake.segments with
  | [] => none
  | head :: _ =>
    if head.x = g.apple.x ∧ head.y = g.apple.y then
      match snake.segments.getLast? with
      | none => none
      | some back =>
        let grown : Snake :=
          { snake with
            segments := snake.segments ++ [SnakeSegment.mk back.x back.y]
            score := snake.score + 1 }
        if grown.score > g.currentHighScore then
          some { g with
            snake := grown
            currentHighScore := grown.score
            highscoreFile := saveHighScore grown.score g.highscoreFile
            apple := Apple.randomize r1 r2 }
        else
          some { g with snake := grown, apple := Apple.randomize r1 r2 }
    else
      some { g with snake := snake }

/-- The simulation part of one iteration of the main loop: `snake.move()`, the
game-over check and the apple check. -/
def tick (g : Game) (r1 r2 : Nat) : Option Game :=
  match g.snake.move with
  | none => none
  | some moved =>
    match moved.checkCollision with
    | none => none
    | some (true, snake) =>
      some { g with
        snake := snake
        highscoreFile := saveHighScore snake.score g.highscoreFile
        running := false }
    | some (false, snake) => appleCheck g snake r1 r2

/-- One iteration of `while (running)`: the pending events, then the tick. -/
def iteration (g : Game) (events : List Event) (r1 r2 : Nat) : Option Game :=
  tick (pollEvents g events) r1 r2

/-- The state of `main` on entry to the main loop; `r1`, `r2` are the `rand()`
values consumed by the constructor of `Apple`, `file` the content of
`highscore.txt`. -/
def initGame (r1 r2 : Nat) (file : Option Int) : Game :=
  { snake := Snake.new
    apple := Apple.randomize r1 r2
    running := true
    currentHighScore := getHighScore file
    highscoreFile := file }

/-- States of `main` at the top of the loop: the initial one, and those an
iteration produces from one in which `running` holds. -/
inductive Reachable : Game → Prop where
  | init (r1 r2 : Nat) (file : Option Int) : Reachable (initGame r1 r2 file)
  | step (g g1 : Game) (events : List Event) (r1 r2 : Nat) :
      Reachable g → g.running = true → iteration g events r1 r2 = some g1 →
      Reachable g1

/-- The direction opposite to `d`; `NONE` has none. -/
def opposite (d : Direction) : Direction :=
  match d with
  | Direction.UP => Direction.DOWN
  | Direction.DOWN => Direction.UP
  | Direction.LEFT => Direction.RIGHT
  | Direction.RIGHT => Direction.LEFT
  | Direction.NONE => Direction.NONE

/-- The key that requests direction `d`. -/
def keyOf (d : Direction) : Key :=
  match d with
  | Direction.UP => Key.SDLK_UP
  | Direction.DOWN => Key.SDLK_DOWN
  | Direction.LEFT => Key.SDLK_LEFT
  | Direction.RIGHT => Key.SDLK_RIGHT
  | Direction.NONE => Key.other

/-- `n` consecutive calls of `Snake::move`. -/
def moves : Nat → Snake → Option Snake
  | 0, s => some s
  | n + 1, s =>
    match s.move with
    | none => none
    | some s1 => moves n s1

/-- The answer of `Snake::checkCollision` after `n` calls of `Snake::move`. -/
def collisionAfter (n : Nat) (s : Snake) : Option Bool :=
  match moves n s with
  | none => none
  | some s1 =>
    match s1.checkCollision with
    | none => none
    | some (b, _) => some b

/-- The head `segments[0]` after `n` calls of `Snake::move`. -/
def headAfter (n : Nat) (s : Snake) : Option SnakeSegment :=
  match moves n s with
  | none => none
  | some s1 => s1.segments.head?

/-- Whether the tick that starts in `g` detects a collision: `snake.move()`
followed by a true `snake.checkCollision()`. -/
def collisionDetected (g : Game) : Bool :=
  match g.snake.move with
  | none => false
  | some moved =>
    match moved.checkCollision with
    | some (true, _) => true
    | _ => false

/-- Whether the tick that starts in `g` reaches the apple check and finds the
head on the apple. -/
def appleEaten (g : Game) : Bool :=
  match g.snake.move with
  | none => false
  | some moved =>
    match moved.checkCollision with
    | some (false, snake) =>
      match snake.segments with
      | [] => false
      | head :: _ => decide (head.x = g.apple.x ∧ head.y = g.apple.y)
    | _ => false

/-- Shape of the snake at the top of the main loop.  Before the first accepted
key it has no direction and sits on (7,7), in one segment or in two; afterwards
it has a direction, is non-empty, and no two segments other than the last
coincide. -/
def SnakeInv (s : Snake) : Prop :=
  (s.hasStarted = true →
    s.direction ≠ Direction.NONE ∧ s.segments ≠ [] ∧ s.segments.dropLast.Nodup) ∧
  (s.hasStarted = false →
    s.direction = Direction.NONE ∧
      (s.segments = [SnakeSegment.mk 7 7] ∨
        s.segments = [SnakeSegment.mk 7 7, SnakeSegment.mk 7 7]))

/-- States the main loop passes through: those at the top of the loop, and those
inside the event loop of an iteration, after any number of pending events. -/
inductive Visited : Game → Prop where
  | top (g : Game) : Reachable g → Visited g
  | polling (g : Game) (events : List Event) :
      Reachable g → g.running = true → Visited (pollEvents g events)

/-- States at the top of the loop in a session that found `file0` as the
content of `highscore.txt` when it started. -/
inductive Session (file0 : Option Int) : Game → Prop where
  | init (r1 r2 : Nat) : Session file0 (initGame r1 r2 file0)
  | step (g g1 : Game) (events : List Event) (r1 r2 : Nat) :
      Session file0 g → g.running = true → iteration g events r1 r2 = some g1 →
      Session file0 g1

/-- The content of `highscore.txt` after the calls `saveHighScore(c)` for the
scores `c` of the list, in order. -/
def saveAll (scores : List Int) (file : Option Int) : Option Int :=
  scores.foldl (fun f c => saveHighScore c f) file

/-- Two cells at Manhattan distance exactly 1. -/
def adjacent (a b : SnakeSegment) : Prop :=
  (a.x - b.x).natAbs + (a.y - b.y).natAbs = 1

instance adjacentDecidable (a b : SnakeSegment) : Decidable (adjacent a b) := by
  unfold adjacent; infer_instance

/-- Whether a cell lies on the 15 x 15 grid. -/
def inGrid (seg : SnakeSegment) : Prop :=
  0 ≤ seg.x ∧ seg.x < 15 ∧ 0 ≤ seg.y ∧ seg.y < 15

instance inGridDecidable (seg : SnakeSegment) : Decidable (inGrid seg) := by
  unfold inGrid; infer_instance

/-- What holds of the snake in every state the main loop passes through.  The
segments without the last one form the trail of the head: a started snake has
neighbouring cells at distance 1 there, and the first of them was reached from
the second in the current direction. -/
def FullInv (s : Snake) : Prop :=
  s.segments ≠ [] ∧ 0 ≤ s.score ∧ (s.segments.length : Int) = s.score + 1 ∧
  (s.nextDirection = Direction.NONE ∨ s.nextDirection ≠ opposite s.direction) ∧
  (s.hasStarted = true →
    s.direction ≠ Direction.NONE ∧ List.Chain' adjacent s.segments.dropLast ∧
      ∀ b0 b1 tl, s.segments.dropLast = b0 :: b1 :: tl →
        b0 = stepHead s.direction b1.x b1.y) ∧
  (s.hasStarted = false →
    s.direction = Direction.NONE ∧ s.nextDirection = Direction.NONE ∧
      ∃ c, s.segments = [c] ∨ s.segments = [c, c])

/-- A state at the top of the loop with five segments: the session with an
empty store, first apple on (8,7), key Right, and the next three apples on
(9,7), (10,7) and (11,7), each eaten as the snake runs to the right. -/
def fiveSegmentGame : Game :=
  { snake := Snake.mk
      [SnakeSegment.mk 11 7, SnakeSegment.mk 10 7, SnakeSegment.mk 9 7,
        SnakeSegment.mk 8 7, SnakeSegment.mk 8 7]
      Direction.RIGHT Direction.NONE true 4
    apple := Apple.mk 0 0
    running := true
    currentHighScore := 4
    highscoreFile := some 4 }

/-! ## Auxiliary lemmas -/

theorem segment_eq_iff (a b : SnakeSegment) : a = b ↔ a.x = b.x ∧ a.y = b.y := by
  cases a; cases b; simp

theorem selfCollision_iff_mem (head : SnakeSegment) (l : List SnakeSegment) :
    selfCollision head l = true ↔ head ∈ l := by
  induction l with
  | nil => simp [selfCollision]
  | cons seg rest ih =>
    by_cases h : head.x = seg.x ∧ head.y = seg.y
    · have : head = seg := (segment_eq_iff head seg).2 h
      simp [selfCollision, h, this]
    · have hne : head ≠ seg := fun e => h ((segment_eq_iff head seg).1 e)
      simp [selfCollision, h, ih, hne]

theorem mem_tail_iff_index (head : SnakeSegment) (first : SnakeSegment)
    (rest : List SnakeSegment) :
    head ∈ rest ↔
      ∃ i seg, 1 ≤ i ∧ (first :: rest)[i]? = some seg ∧ seg.x = head.x ∧ seg.y = head.y := by
  constructor
  · intro h
    obtain ⟨n, hn⟩ := List.getElem?_of_mem h
    exact ⟨n + 1, head, by omega, by simpa using hn, rfl, rfl⟩
  · rintro ⟨i, seg, hi, hget, hx, hy⟩
    obtain ⟨n, rfl⟩ : ∃ n, i = n + 1 := ⟨i - 1, by omega⟩
    have hseg : seg = head := (segment_eq_iff seg head).2 ⟨hx, hy⟩
    subst hseg
    rw [List.getElem?_cons_succ] at hget
    exact List.getElem?_mem hget

theorem move_of_started (s : Snake) (head : SnakeSegment) (rest : List SnakeSegment)
    (hst : s.hasStarted = true) (hd : s.direction ≠ Direction.NONE)
    (hseg : s.segments = head :: rest) :
    s.move = some { s.applyNextDirection with
      segments := stepHead s.applyNextDirection.direction head.x head.y
        :: (head :: rest).dropLast } := by
  have hseg1 : s.applyNextDirection.segments = head :: rest := by
    unfold Snake.applyNextDirection; split <;> simpa using hseg
  unfold Snake.move
  simp only [hst, hd, or_self, if_false, Bool.true_eq_false]
  rw [hseg1]
  simp

theorem move_of_idle (s : Snake)
    (h : s.hasStarted = false ∨ s.direction = Direction.NONE) : s.move = some s := by
  unfold Snake.move; simp [h]

theorem applyNextDirection_segments (s : Snake) :
    s.applyNextDirection.segments = s.segments := by
  unfold Snake.applyNextDirection; split <;> rfl

theorem applyNextDirection_score (s : Snake) :
    s.applyNextDirection.score = s.score := by
  unfold Snake.applyNextDirection; split <;> rfl

theorem applyNextDirection_hasStarted (s : Snake) :
    s.applyNextDirection.hasStarted = s.hasStarted := by
  unfold Snake.applyNextDirection; split <;> rfl

theorem move_frame (s s1 : Snake) (h : s.move = some s1) :
    s1.segments.length = s.segments.length ∧ s1.score = s.score ∧
      s1.hasStarted = s.hasStarted := by
  by_cases hidle : s.hasStarted = false ∨ s.direction = Direction.NONE
  · rw [move_of_idle s hidle] at h
    cases h
    exact ⟨rfl, rfl, rfl⟩
  · have hst : s.hasStarted = true := by
      cases hb : s.hasStarted
      · exact absurd (Or.inl hb) hidle
      · rfl
    have hd : s.direction ≠ Direction.NONE := fun e => hidle (Or.inr e)
    cases hseg : s.segments with
    | nil =>
      unfold Snake.move at h
      simp [hidle, applyNextDirection_segments, hseg] at h
    | cons head rest =>
      rw [move_of_started s head rest hst hd hseg] at h
      cases h
      refine ⟨by simp, applyNextDirection_score s, applyNextDirection_hasStarted s⟩

theorem handleKey_frame (s : Snake) (k : Key) :
    (handleKey s k).segments = s.segments ∧ (handleKey s k).score = s.score := by
  cases k <;> dsimp only [handleKey] <;> (repeat' split) <;>
    exact ⟨rfl, rfl⟩

theorem pollEvents_frame (events : List Event) (g : Game) :
    (pollEvents g events).snake.segments = g.snake.segments ∧
      (pollEvents g events).snake.score = g.snake.score ∧
      (pollEvents g events).apple = g.apple ∧
      (pollEvents g events).currentHighScore = g.currentHighScore ∧
      (pollEvents g events).highscoreFile = g.highscoreFile := by
  induction events generalizing g with
  | nil => simp [pollEvents]
  | cons e rest ih =>
    have h := ih (handleEvent g e)
    simp only [pollEvents, List.foldl_cons] at h ⊢
    refine ⟨h.1.trans ?_, h.2.1.trans ?_, h.2.2.1.trans ?_, h.2.2.2.1.trans ?_,
      h.2.2.2.2.trans ?_⟩ <;> cases e <;> simp [handleEvent, handleKey_frame]

theorem tick_of_no_collision (g : Game) (r1 r2 : Nat) (moved : Snake)
    (hmove : g.snake.move = some moved)
    (hcol : moved.checkCollision = some (false, moved)) :
    tick g r1 r2 = appleCheck g moved r1 r2 := by
  simp [tick, hmove, hcol]

theorem appleCheck_eaten (g : Game) (snake : Snake) (r1 r2 : Nat)
    (head : SnakeSegment) (rest : List SnakeSegment)
    (hseg : snake.segments = head :: rest)
    (heq : head.x = g.apple.x ∧ head.y = g.apple.y) :
    ∃ g1, appleCheck g snake r1 r2 = some g1 ∧
      g1.snake = { snake with
        segments := snake.segments ++ [(head :: rest).getLast (by simp)]
        score := snake.score + 1 } ∧
      g1.running = g.running := by
  have hlast : (head :: rest).getLast? = some ((head :: rest).getLast (by simp)) :=
    List.getLast?_eq_getLast _ _
  unfold appleCheck
  simp only [hseg, heq, and_self, if_true, hlast]
  split <;> exact ⟨_, rfl, rfl, rfl⟩

theorem appleCheck_missed (g : Game) (snake : Snake) (r1 r2 : Nat)
    (head : SnakeSegment) (rest : List SnakeSegment)
    (hseg : snake.segments = head :: rest)
    (hne : ¬(head.x = g.apple.x ∧ head.y = g.apple.y)) :
    appleCheck g snake r1 r2 = some { g with snake := snake } := by
  unfold appleCheck
  simp only [hseg, hne, if_false]

theorem nodup_no_repeat {α : Type} (l : List α) (hl : l.Nodup) (i j : Nat) (a : α)
    (hij : i < j) (hi : l[i]? = some a) (hj : l[j]? = some a) : False := by
  obtain ⟨hjlt, -⟩ := List.getElem?_eq_some_iff.1 hj
  exact List.nodup_iff_getElem?_ne_getElem?.1 hl i j hij hjlt (hi.trans hj.symm)

theorem repeat_in_append_last {α : Type} (l : List α) (hl : l.Nodup) (hne : l ≠ [])
    (i j : Nat) (a : α) (hij : i < j)
    (hi : (l ++ [l.getLast hne])[i]? = some a)
    (hj : (l ++ [l.getLast hne])[j]? = some a) :
    j + 1 = (l ++ [l.getLast hne]).length ∧ i + 1 = j := by
  obtain ⟨hjlt, -⟩ := List.getElem?_eq_some_iff.1 hj
  simp only [List.length_append, List.length_singleton] at hjlt
  by_cases hjl : j < l.length
  · rw [List.getElem?_append_left hjl] at hj
    rw [List.getElem?_append_left (by omega)] at hi
    exact (nodup_no_repeat l hl i j a hij hi hj).elim
  · have hjeq : j = l.length := by omega
    subst hjeq
    rw [List.getElem?_concat_length] at hj
    rw [List.getElem?_append_left hij] at hi
    have hlast : l[l.length - 1]? = some a := by
      rw [← List.getLast?_eq_getElem?, List.getLast?_eq_getLast _ hne]
      exact hj
    by_cases hi1 : i = l.length - 1
    · exact ⟨by simp, by omega⟩
    · exact (nodup_no_repeat l hl i (l.length - 1) a (by omega) hi hlast).elim

theorem checkCollision_cases (s : Snake) (head : SnakeSegment) (rest : List SnakeSegment)
    (hseg : s.segments = head :: rest) :
    (s.checkCollision = some (true, s) ∧
        ((head.x < 0 ∨ head.x ≥ 15 ∨ head.y < 0 ∨ head.y ≥ 15) ∨ head ∈ rest)) ∨
      (s.checkCollision = some (false, s) ∧
        ¬(head.x < 0 ∨ head.x ≥ 15 ∨ head.y < 0 ∨ head.y ≥ 15) ∧ head ∉ rest) := by
  rw [← selfCollision_iff_mem]
  unfold Snake.checkCollision
  rw [hseg]
  by_cases hw : head.x < 0 ∨ head.x ≥ 15 ∨ head.y < 0 ∨ head.y ≥ 15
  · exact Or.inl ⟨by simp only [hw, if_true], Or.inl hw⟩
  · by_cases hc : selfCollision head rest = true
    · exact Or.inl ⟨by simp only [hw, hc, if_true, if_false], Or.inr hc⟩
    · exact Or.inr ⟨by simp [hw, hc], hw, hc⟩

theorem applyNextDirection_direction_ne (s : Snake) (hd : s.direction ≠ Direction.NONE) :
    s.applyNextDirection.direction ≠ Direction.NONE := by
  unfold Snake.applyNextDirection
  split
  · assumption
  · exact hd

theorem snakeInv_new : SnakeInv Snake.new := by
  constructor
  · intro h; cases h
  · intro _; exact ⟨rfl, Or.inl rfl⟩

theorem handleKey_inv (s : Snake) (k : Key) (h : SnakeInv s) : SnakeInv (handleKey s k) := by
  obtain ⟨h1, h2⟩ := h
  cases hb : s.hasStarted with
  | false =>
    obtain ⟨hd, hsegs⟩ := h2 hb
    have hshape : s.segments ≠ [] ∧ s.segments.dropLast.Nodup := by
      rcases hsegs with e | e <;> rw [e] <;> simp
    cases k <;> simp [handleKey, SnakeInv, hd, hb, hshape, hsegs]
  | true =>
    obtain ⟨hd, hne, hnd⟩ := h1 hb
    cases k <;> dsimp only [handleKey] <;> (repeat' split) <;>
      simp [SnakeInv, hd, hb, hne, hnd]

theorem pollEvents_inv (events : List Event) (g : Game) (h : SnakeInv g.snake) :
    SnakeInv (pollEvents g events).snake := by
  induction events generalizing g with
  | nil => exact h
  | cons e rest ih =>
    have hstep : SnakeInv (handleEvent g e).snake := by
      cases e
      · exact h
      · exact handleKey_inv _ _ h
      · exact h
    exact ih (handleEvent g e) hstep

theorem move_inv (s : Snake) (h : SnakeInv s) :
    ∃ moved, s.move = some moved ∧ moved.hasStarted = s.hasStarted ∧
      (s.hasStarted = true →
        moved.direction ≠ Direction.NONE ∧
          ∃ newHead tl, moved.segments = newHead :: tl ∧ tl.Nodup) ∧
      (s.hasStarted = false → moved = s) := by
  cases hb : s.hasStarted with
  | false =>
    exact ⟨s, move_of_idle s (Or.inl hb), hb, fun e => (by cases e), fun _ => rfl⟩
  | true =>
    obtain ⟨hd, hne, hnd⟩ := h.1 hb
    obtain ⟨head, rest, hseg⟩ := List.exists_cons_of_ne_nil hne
    refine ⟨_, move_of_started s head rest hb hd hseg, ?_, fun _ => ?_, fun e => (by cases e)⟩
    · exact (applyNextDirection_hasStarted s).trans hb
    · refine ⟨applyNextDirection_direction_ne s hd, _, _, rfl, ?_⟩
      rw [← hseg]
      exact hnd

theorem tick_inv (g : Game) (r1 r2 : Nat) (h : SnakeInv g.snake) :
    ∃ g1, tick g r1 r2 = some g1 ∧
      ((collisionDetected g = true ∧ g1.running = false) ∨
        (collisionDetected g = false ∧ g1.running = g.running ∧ SnakeInv g1.snake ∧
          ∀ i j a, i < j → g1.snake.segments[i]? = some a →
            g1.snake.segments[j]? = some a →
            appleEaten g = true ∧ j + 1 = g1.snake.segments.length ∧ i + 1 = j)) := by
  obtain ⟨moved, hmove, hst, hstarted, hidle⟩ := move_inv g.snake h
  have hne : ∃ head rest, moved.segments = head :: rest := by
    cases hb : g.snake.hasStarted with
    | false =>
      rw [hidle hb]
      rcases (h.2 hb).2 with e | e <;> rw [e] <;> exact ⟨_, _, rfl⟩
    | true =>
      obtain ⟨-, nh, tl, e, -⟩ := hstarted hb
      exact ⟨nh, tl, e⟩
  obtain ⟨head, rest, hseg⟩ := hne
  rcases checkCollision_cases moved head rest hseg with ⟨hcol, -⟩ | ⟨hcol, -, hmem⟩
  · exact ⟨{ g with
        snake := moved
        highscoreFile := saveHighScore moved.score g.highscoreFile
        running := false }, by simp only [tick, hmove, hcol],
      Or.inl ⟨by simp [collisionDetected, hmove, hcol], rfl⟩⟩
  · have hnodup : (head :: rest).Nodup := by
      cases hb : g.snake.hasStarted with
      | false =>
        have hm := hidle hb
        rcases (h.2 hb).2 with e | e
        · rw [← hseg, hm, e]; simp
        · exfalso
          rw [hm, e] at hseg
          cases hseg
          exact hmem (by simp)
      | true =>
        obtain ⟨-, nh, tl, e, htl⟩ := hstarted hb
        rw [hseg] at e
        cases e
        exact List.nodup_cons.2 ⟨hmem, htl⟩
    have hA : moved.hasStarted = true → moved.direction ≠ Direction.NONE := by
      intro hb
      exact (hstarted (hst ▸ hb)).1
    have hB : moved.hasStarted = false →
        moved.direction = Direction.NONE ∧ head = SnakeSegment.mk 7 7 ∧ rest = [] := by
      intro hb
      have hb1 : g.snake.hasStarted = false := hst ▸ hb
      have hm := hidle hb1
      refine ⟨by rw [hm]; exact (h.2 hb1).1, ?_⟩
      rcases (h.2 hb1).2 with e | e
      · rw [hm, e] at hseg
        cases hseg
        exact ⟨rfl, rfl⟩
      · exfalso
        rw [hm, e] at hseg
        cases hseg
        exact hmem (by simp)
    have hnocol : collisionDetected g = false := by
      simp [collisionDetected, hmove, hcol]
    rw [tick_of_no_collision g r1 r2 moved hmove hcol]
    by_cases heq : head.x = g.apple.x ∧ head.y = g.apple.y
    · obtain ⟨g1, hg1, hsn, hrun⟩ := appleCheck_eaten g moved r1 r2 head rest hseg heq
      have hsegs1 : g1.snake.segments
          = (head :: rest) ++ [(head :: rest).getLast (by simp)] := by
        rw [hsn, hseg]
      refine ⟨g1, hg1, Or.inr ⟨hnocol, hrun, ⟨?_, ?_⟩, ?_⟩⟩
      · intro hb
        have hb1 : moved.hasStarted = true := by rw [hsn] at hb; exact hb
        refine ⟨by rw [hsn]; exact hA hb1, by rw [hsegs1]; simp, ?_⟩
        rw [hsegs1, List.dropLast_concat]
        exact hnodup
      · intro hb
        have hb1 : moved.hasStarted = false := by rw [hsn] at hb; exact hb
        obtain ⟨hd, hh, hr⟩ := hB hb1
        refine ⟨by rw [hsn]; exact hd, Or.inr ?_⟩
        rw [hsegs1]
        subst hh hr
        rfl
      · intro i j a hij hi hj
        rw [hsegs1] at hi hj ⊢
        refine ⟨?_, repeat_in_append_last (head :: rest) hnodup (by simp) i j a hij hi hj⟩
        simp [appleEaten, hmove, hcol, hseg, heq]
    · refine ⟨_, appleCheck_missed g moved r1 r2 head rest hseg heq,
        Or.inr ⟨hnocol, rfl, ⟨?_, ?_⟩, ?_⟩⟩
      · intro hb
        refine ⟨hA hb, ?_, ?_⟩
        · show moved.segments ≠ []
          rw [hseg]; simp
        · show moved.segments.dropLast.Nodup
          rw [hseg]
          exact hnodup.sublist (List.dropLast_sublist _)
      · intro hb
        obtain ⟨hd, hh, hr⟩ := hB hb
        refine ⟨hd, Or.inl ?_⟩
        show moved.segments = _
        rw [hseg, hh, hr]
      · intro i j a hij hi hj
        have hi1 : (head :: rest)[i]? = some a := by rw [← hseg]; exact hi
        have hj1 : (head :: rest)[j]? = some a := by rw [← hseg]; exact hj
        exact (nodup_no_repeat _ hnodup i j a hij hi1 hj1).elim

theorem reachable_inv (g : Game) (hr : Reachable g) :
    g.running = true → SnakeInv g.snake := by
  induction hr with
  | init r1 r2 file => intro _; exact snakeInv_new
  | step g g1 events r1 r2 _ hrun hit ih =>
    intro hrun1
    obtain ⟨g2, hg2, hcases⟩ :=
      tick_inv (pollEvents g events) r1 r2 (pollEvents_inv events g (ih hrun))
    unfold iteration at hit
    rw [hit] at hg2
    cases hg2
    rcases hcases with ⟨-, hstop⟩ | ⟨-, -, hinv, -⟩
    · rw [hstop] at hrun1; cases hrun1
    · exact hinv

theorem tick_cases (g : Game) (r1 r2 : Nat) (moved : Snake)
    (head : SnakeSegment) (rest : List SnakeSegment)
    (hmove : g.snake.move = some moved) (hseg : moved.segments = head :: rest) :
    (moved.checkCollision = some (true, moved) ∧ collisionDetected g = true ∧
        tick g r1 r2 = some { g with
          snake := moved
          highscoreFile := saveHighScore moved.score g.highscoreFile
          running := false }) ∨
      (moved.checkCollision = some (false, moved) ∧ collisionDetected g = false ∧
        ¬(head.x < 0 ∨ head.x ≥ 15 ∨ head.y < 0 ∨ head.y ≥ 15) ∧ head ∉ rest ∧
        (((head.x = g.apple.x ∧ head.y = g.apple.y) ∧
            tick g r1 r2 = some { g with
              snake := { moved with
                segments := moved.segments ++ [(head :: rest).getLast (by simp)]
                score := moved.score + 1 }
              apple := Apple.randomize r1 r2
              currentHighScore :=
                if moved.score + 1 > g.currentHighScore then moved.score + 1
                else g.currentHighScore
              highscoreFile :=
                if moved.score + 1 > g.currentHighScore then
                  saveHighScore (moved.score + 1) g.highscoreFile
                else g.highscoreFile }) ∨
          (¬(head.x = g.apple.x ∧ head.y = g.apple.y) ∧
            tick g r1 r2 = some { g with snake := moved }))) := by
  rcases checkCollision_cases moved head rest hseg with ⟨hcol, -⟩ | ⟨hcol, hwall, hmem⟩
  · exact Or.inl ⟨hcol, by simp [collisionDetected, hmove, hcol],
      by simp only [tick, hmove, hcol]⟩
  · refine Or.inr ⟨hcol, by simp [collisionDetected, hmove, hcol], hwall, hmem, ?_⟩
    rw [tick_of_no_collision g r1 r2 moved hmove hcol]
    by_cases heq : head.x = g.apple.x ∧ head.y = g.apple.y
    · refine Or.inl ⟨heq, ?_⟩
      have hlast : (head :: rest).getLast? = some ((head :: rest).getLast (by simp)) :=
        List.getLast?_eq_getLast _ _
      unfold appleCheck
      simp only [hseg, heq, and_self, if_true, hlast]
      split <;> rfl
    · exact Or.inr ⟨heq, appleCheck_missed g moved r1 r2 head rest hseg heq⟩

theorem getHighScore_saveHighScore (c : Int) (file : Option Int) :
    getHighScore (saveHighScore c file) = max (getHighScore file) c := by
  show getHighScore (if c > getHighScore file then some c else file) = _
  by_cases h : c > getHighScore file
  · rw [if_pos h, max_eq_right (le_of_lt h)]
    rfl
  · rw [if_neg h, max_eq_left (not_lt.1 h)]

theorem getHighScore_saveAll (scores : List Int) (file : Option Int) :
    getHighScore (saveAll scores file) = scores.foldl max (getHighScore file) := by
  induction scores generalizing file with
  | nil => rfl
  | cons c rest ih =>
    simp only [saveAll, List.foldl_cons] at ih ⊢
    rw [ih (saveHighScore c file), getHighScore_saveHighScore]

theorem stepHead_ne (d : Direction) (a : SnakeSegment) (hd : d ≠ Direction.NONE) :
    stepHead d a.x a.y ≠ a := by
  intro h
  have h1 := (segment_eq_iff _ _).1 h
  cases d <;> simp [stepHead] at h1 hd

theorem stepHead_adjacent (d : Direction) (a : SnakeSegment) (hd : d ≠ Direction.NONE) :
    adjacent (stepHead d a.x a.y) a := by
  cases d <;> simp [stepHead, adjacent] at hd ⊢

theorem stepHead_twice_ne (d1 d0 : Direction) (a : SnakeSegment)
    (hd1 : d1 ≠ Direction.NONE) (hd0 : d0 ≠ Direction.NONE) (hopp : d1 ≠ opposite d0) :
    stepHead d1 (stepHead d0 a.x a.y).x (stepHead d0 a.x a.y).y ≠ a := by
  intro h
  have h1 := (segment_eq_iff _ _).1 h
  cases d1 <;> cases d0 <;> simp [stepHead, opposite] at h1 hd1 hd0 hopp <;> omega

theorem stepHead_third_ne (d : Direction) (a b c : SnakeSegment)
    (hab : adjacent a b) (hbc : adjacent b c) (hd : d ≠ Direction.NONE) :
    stepHead d a.x a.y ≠ c := by
  intro h
  have h1 := (segment_eq_iff _ _).1 h
  unfold adjacent at hab hbc
  cases d <;> simp [stepHead] at h1 hd <;> omega

theorem opposite_ne_self (d : Direction) (hd : d ≠ Direction.NONE) : d ≠ opposite d := by
  cases d <;> simp [opposite] at hd ⊢

theorem handleKey_started (s : Snake) (k : Key) (hb : s.hasStarted = true) :
    handleKey s k = s ∨
      ∃ d, d ≠ Direction.NONE ∧ d ≠ opposite s.direction ∧ k = keyOf d ∧
        handleKey s k = { s with nextDirection := d } := by
  cases k
  · by_cases h : s.direction = Direction.DOWN
    · exact Or.inl (by simp [handleKey, h])
    · refine Or.inr ⟨Direction.UP, by decide, ?_, rfl, by simp [handleKey, h, hb]⟩
      intro e; apply h; revert e; cases s.direction <;> simp [opposite]
  · by_cases h : s.direction = Direction.UP
    · exact Or.inl (by simp [handleKey, h])
    · refine Or.inr ⟨Direction.DOWN, by decide, ?_, rfl, by simp [handleKey, h, hb]⟩
      intro e; apply h; revert e; cases s.direction <;> simp [opposite]
  · by_cases h : s.direction = Direction.RIGHT
    · exact Or.inl (by simp [handleKey, h])
    · refine Or.inr ⟨Direction.LEFT, by decide, ?_, rfl, by simp [handleKey, h, hb]⟩
      intro e; apply h; revert e; cases s.direction <;> simp [opposite]
  · by_cases h : s.direction = Direction.LEFT
    · exact Or.inl (by simp [handleKey, h])
    · refine Or.inr ⟨Direction.RIGHT, by decide, ?_, rfl, by simp [handleKey, h, hb]⟩
      intro e; apply h; revert e; cases s.direction <;> simp [opposite]
  · exact Or.inl rfl

theorem handleKey_unstarted (s : Snake) (k : Key) (hb : s.hasStarted = false)
    (hd : s.direction = Direction.NONE) :
    handleKey s k = s ∨
      ∃ d, d ≠ Direction.NONE ∧
        handleKey s k = { s with direction := d, hasStarted := true } := by
  cases k
  · exact Or.inr ⟨Direction.UP, by decide, by simp [handleKey, hd, hb]⟩
  · exact Or.inr ⟨Direction.DOWN, by decide, by simp [handleKey, hd, hb]⟩
  · exact Or.inr ⟨Direction.LEFT, by decide, by simp [handleKey, hd, hb]⟩
  · exact Or.inr ⟨Direction.RIGHT, by decide, by simp [handleKey, hd, hb]⟩
  · exact Or.inl rfl

theorem handleKey_full (s : Snake) (k : Key) (h : FullInv s) :
    FullInv (handleKey s k) ∧
      (s.hasStarted = true →
        (handleKey s k).hasStarted = true ∧ (handleKey s k).direction = s.direction) := by
  obtain ⟨hne, hsc, hlen, hnext, hstarted, hidle⟩ := h
  cases hb : s.hasStarted with
  | false =>
    refine ⟨?_, fun e => (by cases e)⟩
    obtain ⟨hd, hn, c, hc⟩ := hidle hb
    rcases handleKey_unstarted s k hb hd with e | ⟨d, hdne, e⟩
    · rw [e]
      exact ⟨hne, hsc, hlen, hnext, hstarted, hidle⟩
    · rw [e]
      refine ⟨hne, hsc, hlen, Or.inl hn, fun _ => ⟨hdne, ?_, ?_⟩, fun e1 => (by cases e1)⟩
      · show List.Chain' adjacent s.segments.dropLast
        rcases hc with e1 | e1 <;> rw [e1] <;> simp
      · intro b0 b1 tl e2
        have e3 : s.segments.dropLast = b0 :: b1 :: tl := e2
        rcases hc with e1 | e1 <;> rw [e1] at e3 <;> simp at e3
  | true =>
    obtain ⟨hd, hchain, hrel⟩ := hstarted hb
    rcases handleKey_started s k hb with e | ⟨d, hdne, hopp, -, e⟩
    · rw [e]
      exact ⟨⟨hne, hsc, hlen, hnext, fun _ => ⟨hd, hchain, hrel⟩,
        fun e1 => (by rw [hb] at e1; cases e1)⟩, fun _ => ⟨hb, rfl⟩⟩
    · rw [e]
      exact ⟨⟨hne, hsc, hlen, Or.inr hopp, fun _ => ⟨hd, hchain, hrel⟩,
        fun e1 => (by rw [show s.hasStarted = false from e1] at hb; cases hb)⟩,
        fun _ => ⟨hb, rfl⟩⟩

theorem pollEvents_full (events : List Event) (g : Game) (h : FullInv g.snake) :
    FullInv (pollEvents g events).snake ∧
      (g.snake.hasStarted = true →
        (pollEvents g events).snake.hasStarted = true ∧
          (pollEvents g events).snake.direction = g.snake.direction) := by
  induction events generalizing g with
  | nil => exact ⟨h, fun e => ⟨e, rfl⟩⟩
  | cons e rest ih =>
    have hstep : FullInv (handleEvent g e).snake ∧
        (g.snake.hasStarted = true →
          (handleEvent g e).snake.hasStarted = true ∧
            (handleEvent g e).snake.direction = g.snake.direction) := by
      cases e
      · exact ⟨h, fun e => ⟨e, rfl⟩⟩
      · exact handleKey_full _ _ h
      · exact ⟨h, fun e => ⟨e, rfl⟩⟩
    obtain ⟨h1, h2⟩ := ih (handleEvent g e) hstep.1
    refine ⟨h1, fun hb => ?_⟩
    obtain ⟨hb1, hd1⟩ := hstep.2 hb
    obtain ⟨hb2, hd2⟩ := h2 hb1
    exact ⟨hb2, hd2.trans hd1⟩

theorem fresh_head (d1 d0 : Direction) (h0 : SnakeSegment) (body : List SnakeSegment)
    (hd1 : d1 ≠ Direction.NONE) (hd0 : d0 ≠ Direction.NONE) (hopp : d1 ≠ opposite d0)
    (hbody : body = [] ∨ ∃ tl, body = h0 :: tl)
    (hchain : List.Chain' adjacent body)
    (hrel : ∀ b0 b1 tl, body = b0 :: b1 :: tl → b0 = stepHead d0 b1.x b1.y)
    (k : Nat) (seg : SnakeSegment) (hk1 : 1 ≤ k) (hk3 : k ≤ 3)
    (hget : (stepHead d1 h0.x h0.y :: body)[k]? = some seg) :
    seg ≠ stepHead d1 h0.x h0.y := by
  obtain ⟨n, rfl⟩ : ∃ n, k = n + 1 := ⟨k - 1, by omega⟩
  rw [List.getElem?_cons_succ] at hget
  rcases hbody with rfl | ⟨tl, rfl⟩
  · simp at hget
  · rcases n with _ | _ | _ | n
    · simp at hget
      subst hget
      exact (stepHead_ne d1 _ hd1).symm
    · cases tl with
      | nil => simp at hget
      | cons b1 tl1 =>
        simp at hget
        subst hget
        have hh := hrel h0 b1 tl1 rfl
        intro e
        rw [hh] at e
        exact stepHead_twice_ne d1 d0 b1 hd1 hd0 hopp e.symm
    · cases tl with
      | nil => simp at hget
      | cons b1 tl1 =>
        cases tl1 with
        | nil => simp at hget
        | cons b2 tl2 =>
          simp at hget
          subst hget
          rw [List.chain'_cons, List.chain'_cons] at hchain
          intro e
          exact stepHead_third_ne d1 h0 b1 b2 hchain.1 hchain.2.1 hd1 e.symm
    · omega

theorem dropLast_eq_cons_cons {α : Type} (l : List α) (b0 b1 : α) (tl : List α)
    (h : l.dropLast = b0 :: b1 :: tl) : ∃ tl1, l = b0 :: b1 :: tl1 := by
  rcases l with _ | ⟨a0, _ | ⟨a1, _ | ⟨a2, l2⟩⟩⟩
  · simp at h
  · simp at h
  · simp at h
  · simp only [List.dropLast_cons₂, List.cons.injEq] at h
    exact ⟨_, by rw [h.1, h.2.1]⟩

theorem move_full (s : Snake) (h : FullInv s) :
    ∃ moved, s.move = some moved ∧ moved.hasStarted = s.hasStarted ∧
      moved.score = s.score ∧ moved.segments.length = s.segments.length ∧
      (s.hasStarted = false → moved = s) ∧
      (s.hasStarted = true →
        moved.direction ≠ Direction.NONE ∧ moved.nextDirection = Direction.NONE ∧
          moved.direction ≠ opposite s.direction ∧
          List.Chain' adjacent moved.segments ∧
          (∀ b0 b1 tl, moved.segments = b0 :: b1 :: tl →
            b0 = stepHead moved.direction b1.x b1.y) ∧
          (∀ k head seg, 1 ≤ k → k ≤ 3 → moved.segments[0]? = some head →
            moved.segments[k]? = some seg → seg ≠ head)) := by
  obtain ⟨hne, -, -, hnext, hstarted, -⟩ := h
  cases hb : s.hasStarted with
  | false =>
    exact ⟨s, move_of_idle s (Or.inl hb), hb, rfl, rfl, fun _ => rfl, fun e => (by cases e)⟩
  | true =>
    obtain ⟨hd, hchain, hrel⟩ := hstarted hb
    obtain ⟨h0, r0, hseg⟩ := List.exists_cons_of_ne_nil hne
    have hd1 : s.applyNextDirection.direction ≠ Direction.NONE :=
      applyNextDirection_direction_ne s hd
    have hopp : s.applyNextDirection.direction ≠ opposite s.direction := by
      unfold Snake.applyNextDirection
      split
      · rename_i hn
        rcases hnext with e | e
        · exact absurd e hn
        · exact e
      · exact opposite_ne_self s.direction hd
    have hnone : s.applyNextDirection.nextDirection = Direction.NONE := by
      unfold Snake.applyNextDirection
      split
      · rfl
      · rename_i hn
        exact not_not.1 hn
    have hbody : (h0 :: r0).dropLast = [] ∨ ∃ tl, (h0 :: r0).dropLast = h0 :: tl := by
      cases r0 with
      | nil => exact Or.inl rfl
      | cons r1 r2 => exact Or.inr ⟨_, List.dropLast_cons₂⟩
    rw [hseg] at hchain hrel
    refine ⟨_, move_of_started s h0 r0 hb hd hseg, (applyNextDirection_hasStarted s).trans hb,
      applyNextDirection_score s, by rw [hseg]; simp, fun e => (by cases e),
      fun _ => ⟨hd1, hnone, hopp, ?_, ?_, ?_⟩⟩
    · show List.Chain' adjacent
        (stepHead s.applyNextDirection.direction h0.x h0.y :: (h0 :: r0).dropLast)
      rcases hbody with e | ⟨tl, e⟩
      · rw [e]; exact List.chain'_singleton _
      · rw [e] at hchain ⊢
        exact List.chain'_cons.2 ⟨stepHead_adjacent _ h0 hd1, hchain⟩
    · intro b0 b1 tl e
      have e1 : stepHead s.applyNextDirection.direction h0.x h0.y :: (h0 :: r0).dropLast
          = b0 :: b1 :: tl := e
      rcases hbody with e2 | ⟨tl2, e2⟩
      · rw [e2] at e1; simp at e1
      · rw [e2] at e1
        simp only [List.cons.injEq] at e1
        rw [← e1.1, ← e1.2.1]
    · intro k head seg hk1 hk3 hhead hk
      have hhead1 : (stepHead s.applyNextDirection.direction h0.x h0.y
          :: (h0 :: r0).dropLast)[0]? = some head := hhead
      have hk2 : (stepHead s.applyNextDirection.direction h0.x h0.y
          :: (h0 :: r0).dropLast)[k]? = some seg := hk
      simp only [List.getElem?_cons_zero, Option.some.injEq] at hhead1
      rw [← hhead1]
      exact fresh_head _ s.direction h0 _ hd1 hd hopp hbody hchain hrel k seg hk1 hk3 hk2

theorem tick_full (g : Game) (r1 r2 : Nat) (h : FullInv g.snake) :
    ∃ moved g1, g.snake.move = some moved ∧ tick g r1 r2 = some g1 ∧
      FullInv g1.snake ∧ g1.snake.direction = moved.direction ∧
      g1.snake.hasStarted = moved.hasStarted ∧ moved.segments ≠ [] ∧
      (∃ b, moved.checkCollision = some (b, moved)) := by
  obtain ⟨moved, hmove, hst, hsc, hlen, hidle, hact⟩ := move_full g.snake h
  have hne : moved.segments ≠ [] := by
    intro e
    rw [e] at hlen
    exact h.1 (List.length_eq_zero.1 hlen.symm)
  obtain ⟨head, rest, hseg⟩ := List.exists_cons_of_ne_nil hne
  have hfm : FullInv moved := by
    cases hb : g.snake.hasStarted with
    | false => rw [hidle hb]; exact h
    | true =>
      obtain ⟨hd, hnone, -, hchain, hrel, -⟩ := hact hb
      refine ⟨hne, by rw [hsc]; exact h.2.1, by rw [hlen, hsc]; exact h.2.2.1,
        Or.inl hnone, fun _ => ⟨hd, hchain.init, ?_⟩,
        fun e => (by rw [hst, hb] at e; cases e)⟩
      intro b0 b1 tl e
      obtain ⟨tl1, e1⟩ := dropLast_eq_cons_cons _ b0 b1 tl e
      exact hrel b0 b1 tl1 e1
  have hfg : head ∉ rest →
      FullInv { moved with
        segments := moved.segments ++ [(head :: rest).getLast (by simp)]
        score := moved.score + 1 } := by
    intro hmem
    obtain ⟨-, hsc0, hlen0, hnext0, -, -⟩ := hfm
    refine ⟨by simp, by show 0 ≤ moved.score + 1; omega, ?_, hnext0, ?_, ?_⟩
    · show ((moved.segments ++ [(head :: rest).getLast (by simp)]).length : Int)
        = moved.score + 1 + 1
      rw [List.length_append, List.length_singleton]
      push_cast
      omega
    · intro hb
      have hb1 : g.snake.hasStarted = true := hst ▸ hb
      obtain ⟨hd, -, -, hchain, hrel, -⟩ := hact hb1
      refine ⟨hd, ?_, ?_⟩
      · show List.Chain' adjacent
          (moved.segments ++ [(head :: rest).getLast (by simp)]).dropLast
        rw [List.dropLast_concat]
        exact hchain
      · intro b0 b1 tl e
        have e1 : (moved.segments ++ [(head :: rest).getLast (by simp)]).dropLast
            = b0 :: b1 :: tl := e
        rw [List.dropLast_concat] at e1
        exact hrel b0 b1 tl e1
    · intro hb
      have hb1 : g.snake.hasStarted = false := hst ▸ hb
      have hm := hidle hb1
      obtain ⟨hd, hn, c, hc⟩ := h.2.2.2.2.2 hb1
      refine ⟨by rw [hm]; exact hd, by rw [hm]; exact hn, c, Or.inr ?_⟩
      show moved.segments ++ [(head :: rest).getLast (by simp)] = [c, c]
      rcases hc with e | e
      · rw [hm, e] at hseg
        cases hseg
        rw [hm, e]
        rfl
      · exfalso
        rw [hm, e] at hseg
        cases hseg
        exact hmem (by simp)
  rcases tick_cases g r1 r2 moved head rest hmove hseg with
    ⟨hcol, -, ht⟩ | ⟨hcol, -, -, hmem, ⟨-, ht⟩ | ⟨-, ht⟩⟩
  · exact ⟨moved, _, hmove, ht, hfm, rfl, rfl, hne, ⟨_, hcol⟩⟩
  · exact ⟨moved, _, hmove, ht, hfg hmem, rfl, rfl, hne, ⟨_, hcol⟩⟩
  · exact ⟨moved, _, hmove, ht, hfm, rfl, rfl, hne, ⟨_, hcol⟩⟩

theorem fullInv_new : FullInv Snake.new := by
  refine ⟨by simp [Snake.new], by simp [Snake.new], by simp [Snake.new], Or.inl rfl,
    fun e => (by cases e), fun _ => ⟨rfl, rfl, SnakeSegment.mk 7 7, Or.inl rfl⟩⟩

theorem reachable_full (g : Game) (hr : Reachable g) : FullInv g.snake := by
  induction hr with
  | init r1 r2 file => exact fullInv_new
  | step g g1 events r1 r2 _ _ hit ih =>
    obtain ⟨-, g2, -, hg2, hinv, -⟩ :=
      tick_full (pollEvents g events) r1 r2 (pollEvents_full events g ih).1
    unfold iteration at hit
    rw [hit] at hg2
    cases hg2
    exact hinv

theorem visited_full (g : Game) (hv : Visited g) : FullInv g.snake := by
  cases hv with
  | top _ hr => exact reachable_full g hr
  | polling g0 events hr _ => exact (pollEvents_full events g0 (reachable_full g0 hr)).1

theorem move_rest_mem (s moved : Snake) (hmove : s.move = some moved)
    (head : SnakeSegment) (rest : List SnakeSegment) (hseg : moved.segments = head :: rest)
    (seg : SnakeSegment) (hmem : seg ∈ rest) : seg ∈ s.segments := by
  by_cases hidle : s.hasStarted = false ∨ s.direction = Direction.NONE
  · rw [move_of_idle s hidle] at hmove
    cases hmove
    rw [hseg]
    exact List.mem_cons_of_mem _ hmem
  · have hst : s.hasStarted = true := by
      cases hb : s.hasStarted
      · exact absurd (Or.inl hb) hidle
      · rfl
    have hd : s.direction ≠ Direction.NONE := fun e => hidle (Or.inr e)
    cases hs : s.segments with
    | nil =>
      unfold Snake.move at hmove
      simp [hidle, applyNextDirection_segments, hs] at hmove
    | cons h0 r0 =>
      rw [move_of_started s h0 r0 hst hd hs] at hmove
      cases hmove
      simp only [List.cons.injEq] at hseg
      rw [← hseg.2] at hmem
      exact List.mem_of_mem_dropLast hmem

theorem session_reachable (file0 : Option Int) (g : Game) (hs : Session file0 g) :
    Reachable g := by
  induction hs with
  | init r1 r2 => exact Reachable.init r1 r2 file0
  | step g g1 events r1 r2 _ hrun hit ih => exact Reachable.step g g1 events r1 r2 ih hrun hit

theorem session_score_inv (file0 : Option Int) (g : Game) (hs : Session file0 g) :
    g.running = true →
      g.currentHighScore = getHighScore g.highscoreFile ∧
        getHighScore file0 ≤ g.currentHighScore ∧
        (g.currentHighScore = getHighScore file0 ∨ g.currentHighScore = g.snake.score) ∧
        (g.snake.score ≤ g.currentHighScore ∨ g.snake.score = 0) := by
  induction hs with
  | init r1 r2 => intro _; exact ⟨rfl, le_refl _, Or.inl rfl, Or.inr rfl⟩
  | step g g1 events r1 r2 hs0 hrun hit ih =>
    intro hrun1
    obtain ⟨h1, h2, h3, h4⟩ := ih hrun
    obtain ⟨-, hsc, -, hchs, hfile⟩ := pollEvents_frame events g
    have hinv := (pollEvents_full events g
      (reachable_full g (session_reachable file0 g hs0))).1
    obtain ⟨moved, -, hmove, -, -, -, -, hne, -⟩ := tick_full (pollEvents g events) r1 r2 hinv
    obtain ⟨head, rest, hseg⟩ := List.exists_cons_of_ne_nil hne
    have hmsc : moved.score = g.snake.score :=
      (move_frame _ moved hmove).2.1.trans hsc
    unfold iteration at hit
    rcases tick_cases (pollEvents g events) r1 r2 moved head rest hmove hseg with
      ⟨-, -, ht⟩ | ⟨-, -, -, -, ⟨-, ht⟩ | ⟨-, ht⟩⟩
    · rw [hit] at ht
      cases ht
      cases hrun1
    · rw [hit] at ht
      cases ht
      show (if moved.score + 1 > (pollEvents g events).currentHighScore then moved.score + 1
            else (pollEvents g events).currentHighScore)
          = getHighScore
            (if moved.score + 1 > (pollEvents g events).currentHighScore then
              saveHighScore (moved.score + 1) (pollEvents g events).highscoreFile
            else (pollEvents g events).highscoreFile) ∧
        getHighScore file0 ≤
          (if moved.score + 1 > (pollEvents g events).currentHighScore then moved.score + 1
            else (pollEvents g events).currentHighScore) ∧
        ((if moved.score + 1 > (pollEvents g events).currentHighScore then moved.score + 1
            else (pollEvents g events).currentHighScore) = getHighScore file0 ∨
          (if moved.score + 1 > (pollEvents g events).currentHighScore then moved.score + 1
            else (pollEvents g events).currentHighScore) = moved.score + 1) ∧
        (moved.score + 1 ≤
          (if moved.score + 1 > (pollEvents g events).currentHighScore then moved.score + 1
            else (pollEvents g events).currentHighScore) ∨ moved.score + 1 = 0)
      rw [hchs, hfile, hmsc]
      by_cases hgt : g.snake.score + 1 > g.currentHighScore
      · rw [if_pos hgt, if_pos hgt, getHighScore_saveHighScore]
        refine ⟨?_, by omega, Or.inr rfl, Or.inl (le_refl _)⟩
        rw [← h1, max_eq_right (le_of_lt hgt)]
      · rw [if_neg hgt, if_neg hgt]
        refine ⟨h1, h2, ?_, Or.inl (by omega)⟩
        rcases h3 with e | e
        · exact Or.inl e
        · omega
    · rw [hit] at ht
      cases ht
      show (pollEvents g events).currentHighScore
          = getHighScore (pollEvents g events).highscoreFile ∧
        getHighScore file0 ≤ (pollEvents g events).currentHighScore ∧
        ((pollEvents g events).currentHighScore = getHighScore file0 ∨
          (pollEvents g events).currentHighScore = moved.score) ∧
        (moved.score ≤ (pollEvents g events).currentHighScore ∨ moved.score = 0)
      rw [hchs, hfile, hmsc]
      exact ⟨h1, h2, h3, h4⟩

theorem opposite_opposite (d : Direction) : opposite (opposite d) = d := by
  cases d <;> rfl

theorem handleKey_accept (s : Snake) (d : Direction) (hst : s.hasStarted = true)
    (hd : d ≠ Direction.NONE) (hopp : d ≠ opposite s.direction) :
    handleKey s (keyOf d) = { s with nextDirection := d } := by
  have hdir : s.direction ≠ opposite d := by
    intro e
    apply hopp
    rw [e, opposite_opposite]
  cases d <;> simp [handleKey, keyOf, opposite, hst] at hd hdir ⊢ <;> exact fun e => absurd e hdir

theorem handleKey_reject (s : Snake) (d : Direction)
    (h : ¬(d ≠ Direction.NONE ∧ d ≠ opposite s.direction)) :
    handleKey s (keyOf d) = s := by
  by_cases hd : d = Direction.NONE
  · rw [hd]; rfl
  · have hopp : d = opposite s.direction := by
      by_contra hne
      exact h ⟨hd, hne⟩
    rw [hopp]
    cases hdir : s.direction <;> simp [handleKey, keyOf, opposite, hdir]

theorem handleKeys_started (ds : List Direction) (s : Snake) (hst : s.hasStarted = true) :
    List.foldl handleKey s (ds.map keyOf) =
      { s with nextDirection :=
          (Option.getD
            (ds.filter
              (fun r => decide (r ≠ Direction.NONE ∧ r ≠ opposite s.direction))).getLast?
            s.nextDirection) } := by
  induction ds generalizing s with
  | nil => rfl
  | cons d rest ih =>
    rw [List.map_cons, List.foldl_cons]
    by_cases hacc : d ≠ Direction.NONE ∧ d ≠ opposite s.direction
    · rw [handleKey_accept s d hst hacc.1 hacc.2, ih { s with nextDirection := d } hst,
        List.filter_cons_of_pos (by simpa using hacc), List.getLast?_cons]
      rfl
    · rw [handleKey_reject s d hacc, ih s hst,
        List.filter_cons_of_neg (by simpa using hacc)]

theorem fiveSegmentGame_reachable : Reachable fiveSegmentGame := by
  have h0 : Reachable (initGame 8 7 none) := Reachable.init 8 7 none
  have h1 : Reachable
      (Game.mk (Snake.mk [SnakeSegment.mk 8 7, SnakeSegment.mk 8 7]
        Direction.RIGHT Direction.NONE true 1) (Apple.mk 9 7) true 1 (some 1)) :=
    Reachable.step _ _ [Event.SDL_KEYDOWN Key.SDLK_RIGHT] 9 7 h0 rfl (by decide)
  have h2 : Reachable
      (Game.mk (Snake.mk [SnakeSegment.mk 9 7, SnakeSegment.mk 8 7, SnakeSegment.mk 8 7]
        Direction.RIGHT Direction.NONE true 2) (Apple.mk 10 7) true 2 (some 2)) :=
    Reachable.step _ _ [] 10 7 h1 rfl (by decide)
  have h3 : Reachable
      (Game.mk (Snake.mk [SnakeSegment.mk 10 7, SnakeSegment.mk 9 7, SnakeSegment.mk 8 7,
          SnakeSegment.mk 8 7]
        Direction.RIGHT Direction.NONE true 3) (Apple.mk 11 7) true 3 (some 3)) :=
    Reachable.step _ _ [] 11 7 h2 rfl (by decide)
  exact Reachable.step _ _ [] 0 0 h3 rfl (by decide)

/-! ## Theorems -/

/-- C1. Opposite-direction rule: when the current direction is `d` (one of Up,
Down, Left, Right), handling the key for the direction opposite to `d` leaves
the whole snake as it was: direction, nextDirection, hasStarted, segments and
score. -/
theorem handleKey_opposite_ignored (s : Snake) (d : Direction)
    (hd : d ≠ Direction.NONE) (hs : s.direction = d) :
    handleKey s (keyOf (opposite d)) = s := by
  cases d <;> simp_all [handleKey, keyOf, opposite]

/-- Witness for C1: a snake moving Right ignores the key Left. -/
theorem handleKey_opposite_ignored_witness :
    handleKey (Snake.mk [SnakeSegment.mk 7 7] Direction.RIGHT Direction.UP true 0)
        (keyOf (opposite Direction.RIGHT))
      = Snake.mk [SnakeSegment.mk 7 7] Direction.RIGHT Direction.UP true 0 :=
  handleKey_opposite_ignored
    (Snake.mk [SnakeSegment.mk 7 7] Direction.RIGHT Direction.UP true 0)
    Direction.RIGHT (by decide) rfl

/-- C2. `Snake::move` on a started snake with a direction and a non-empty
segment list returns; the active direction becomes nextDirection when that is
not NONE and stays otherwise; nextDirection is NONE afterwards; the segments
are the new head followed by the old segments without their last element, the
new head being the old head moved one cell in the active direction (Up: y-1,
Down: y+1, Left: x-1, Right: x+1); length, score and hasStarted are unchanged. -/
theorem move_started_spec (s : Snake) (head : SnakeSegment) (rest : List SnakeSegment)
    (hst : s.hasStarted = true) (hd : s.direction ≠ Direction.NONE)
    (hseg : s.segments = head :: rest) :
    ∃ s1 newHead, s.move = some s1 ∧
      s1.direction =
        (if s.nextDirection ≠ Direction.NONE then s.nextDirection else s.direction) ∧
      s1.direction ≠ Direction.NONE ∧
      s1.nextDirection = Direction.NONE ∧
      s1.segments = newHead :: s.segments.dropLast ∧
      (s1.direction = Direction.UP → newHead = SnakeSegment.mk head.x (head.y - 1)) ∧
      (s1.direction = Direction.DOWN → newHead = SnakeSegment.mk head.x (head.y + 1)) ∧
      (s1.direction = Direction.LEFT → newHead = SnakeSegment.mk (head.x - 1) head.y) ∧
      (s1.direction = Direction.RIGHT → newHead = SnakeSegment.mk (head.x + 1) head.y) ∧
      s1.segments.length = s.segments.length ∧
      s1.score = s.score ∧
      s1.hasStarted = s.hasStarted := by
  refine ⟨_, stepHead s.applyNextDirection.direction head.x head.y,
    move_of_started s head rest hst hd hseg, ?_⟩
  by_cases hn : s.nextDirection = Direction.NONE
  · have happ : s.applyNextDirection = s := by simp [Snake.applyNextDirection, hn]
    rw [happ]
    refine ⟨by simp [hn], hd, hn, by rw [hseg], ?_, ?_, ?_, ?_, by simp [hseg], rfl, rfl⟩ <;>
      intro h <;> dsimp only at h <;> simp [h, stepHead]
  · have happ : s.applyNextDirection =
        { s with direction := s.nextDirection, nextDirection := Direction.NONE } := by
      simp [Snake.applyNextDirection, hn]
    rw [happ]
    refine ⟨by simp [hn], hn, rfl, by rw [hseg], ?_, ?_, ?_, ?_, by simp [hseg], rfl, rfl⟩ <;>
      intro h <;> dsimp only at h <;> simp [h, stepHead]

/-- Witness for C2: a started snake of three segments heading Up with Left
buffered. -/
theorem move_started_spec_witness :
    ∃ s1 newHead,
      (Snake.mk [SnakeSegment.mk 5 5, SnakeSegment.mk 5 6, SnakeSegment.mk 5 7]
        Direction.UP Direction.LEFT true 2).move = some s1 ∧
      s1.direction =
        (if Direction.LEFT ≠ Direction.NONE then Direction.LEFT else Direction.UP) ∧
      s1.direction ≠ Direction.NONE ∧
      s1.nextDirection = Direction.NONE ∧
      s1.segments = newHead ::
        [SnakeSegment.mk 5 5, SnakeSegment.mk 5 6, SnakeSegment.mk 5 7].dropLast ∧
      (s1.direction = Direction.UP → newHead = SnakeSegment.mk 5 (5 - 1)) ∧
      (s1.direction = Direction.DOWN → newHead = SnakeSegment.mk 5 (5 + 1)) ∧
      (s1.direction = Direction.LEFT → newHead = SnakeSegment.mk (5 - 1) 5) ∧
      (s1.direction = Direction.RIGHT → newHead = SnakeSegment.mk (5 + 1) 5) ∧
      s1.segments.length = 3 ∧
      s1.score = 2 ∧
      s1.hasStarted = true :=
  move_started_spec
    (Snake.mk [SnakeSegment.mk 5 5, SnakeSegment.mk 5 6, SnakeSegment.mk 5 7]
      Direction.UP Direction.LEFT true 2)
    (SnakeSegment.mk 5 5) [SnakeSegment.mk 5 6, SnakeSegment.mk 5 7] rfl (by decide) rfl

/-- C3. On a non-empty segment list `Snake::checkCollision` returns, leaves the
snake as it was, and answers true exactly when the head has x < 0 or x >= 15 or
y < 0 or y >= 15, or some segment at an index i >= 1 has the x and y of the head. -/
theorem checkCollision_spec (s : Snake) (head : SnakeSegment) (rest : List SnakeSegment)
    (hseg : s.segments = head :: rest) :
    ∃ b, s.checkCollision = some (b, s) ∧
      (b = true ↔
        (head.x < 0 ∨ head.x ≥ 15 ∨ head.y < 0 ∨ head.y ≥ 15 ∨
          ∃ i seg, 1 ≤ i ∧ s.segments[i]? = some seg ∧
            seg.x = head.x ∧ seg.y = head.y)) := by
  rw [hseg, ← mem_tail_iff_index head head rest, ← selfCollision_iff_mem]
  unfold Snake.checkCollision
  rw [hseg]
  by_cases hw : head.x < 0 ∨ head.x ≥ 15 ∨ head.y < 0 ∨ head.y ≥ 15
  · refine ⟨true, by simp only [hw, if_true], ?_⟩
    simp only [true_iff]
    tauto
  · by_cases hc : selfCollision head rest = true
    · refine ⟨true, by simp only [hw, hc, if_true, if_false], ?_⟩
      simp only [true_iff]
      tauto
    · refine ⟨false, by simp [hw, hc], ?_⟩
      simp only [Bool.false_eq_true, false_iff]
      tauto

/-- Witness for C3: a snake whose head sits on its fourth segment. -/
theorem checkCollision_spec_witness :
    ∃ b, (Snake.mk [SnakeSegment.mk 3 3, SnakeSegment.mk 3 4, SnakeSegment.mk 4 4,
            SnakeSegment.mk 4 3, SnakeSegment.mk 3 3]
          Direction.LEFT Direction.NONE true 4).checkCollision
        = some (b, Snake.mk [SnakeSegment.mk 3 3, SnakeSegment.mk 3 4, SnakeSegment.mk 4 4,
            SnakeSegment.mk 4 3, SnakeSegment.mk 3 3]
          Direction.LEFT Direction.NONE true 4) ∧
      (b = true ↔
        ((3 : Int) < 0 ∨ (3 : Int) ≥ 15 ∨ (3 : Int) < 0 ∨ (3 : Int) ≥ 15 ∨
          ∃ i seg, 1 ≤ i ∧
            [SnakeSegment.mk 3 3, SnakeSegment.mk 3 4, SnakeSegment.mk 4 4,
              SnakeSegment.mk 4 3, SnakeSegment.mk 3 3][i]? = some seg ∧
            seg.x = 3 ∧ seg.y = 3)) :=
  checkCollision_spec
    (Snake.mk [SnakeSegment.mk 3 3, SnakeSegment.mk 3 4, SnakeSegment.mk 4 4,
        SnakeSegment.mk 4 3, SnakeSegment.mk 3 3]
      Direction.LEFT Direction.NONE true 4)
    (SnakeSegment.mk 3 3)
    [SnakeSegment.mk 3 4, SnakeSegment.mk 4 4, SnakeSegment.mk 4 3, SnakeSegment.mk 3 3] rfl

/-- C4. Growth law.  In an iteration of the main loop whose advance ends without
a collision, the tick returns; when the head then lies on the apple, the snake
ends the tick with exactly one segment more and a score exactly one higher than
before the tick; when it does not, both are as before the tick. -/
theorem growth_law (g : Game) (events : List Event) (r1 r2 : Nat)
    (moved : Snake) (head : SnakeSegment) (rest : List SnakeSegment)
    (hmove : (pollEvents g events).snake.move = some moved)
    (hcol : moved.checkCollision = some (false, moved))
    (hseg : moved.segments = head :: rest) :
    ∃ g1, iteration g events r1 r2 = some g1 ∧
      ((head.x = g.apple.x ∧ head.y = g.apple.y) →
        g1.snake.segments.length = g.snake.segments.length + 1 ∧
          g1.snake.score = g.snake.score + 1) ∧
      (¬(head.x = g.apple.x ∧ head.y = g.apple.y) →
        g1.snake.segments.length = g.snake.segments.length ∧
          g1.snake.score = g.snake.score) := by
  have hpoll := pollEvents_frame events g
  have hfr := move_frame _ _ hmove
  rw [hpoll.1, hpoll.2.1] at hfr
  unfold iteration
  rw [tick_of_no_collision _ r1 r2 moved hmove hcol]
  by_cases heq : head.x = g.apple.x ∧ head.y = g.apple.y
  · have heq1 : head.x = (pollEvents g events).apple.x ∧
        head.y = (pollEvents g events).apple.y := by rw [hpoll.2.2.1]; exact heq
    obtain ⟨g1, hg1, hsn, -⟩ := appleCheck_eaten _ moved r1 r2 head rest hseg heq1
    refine ⟨g1, hg1, fun _ => ?_, fun hn => absurd heq hn⟩
    rw [hsn]
    simp [hfr.1, hfr.2.1]
  · have hne1 : ¬(head.x = (pollEvents g events).apple.x ∧
        head.y = (pollEvents g events).apple.y) := by rw [hpoll.2.2.1]; exact heq
    refine ⟨_, appleCheck_missed _ moved r1 r2 head rest hseg hne1,
      fun h => absurd h heq, fun _ => ⟨hfr.1, hfr.2.1⟩⟩

/-- Witness for C4: the first tick after the key Right, with the apple on (8,7). -/
theorem growth_law_witness :
    ∃ g1, iteration (initGame 8 7 none) [Event.SDL_KEYDOWN Key.SDLK_RIGHT] 3 4 = some g1 ∧
      (((8 : Int) = (initGame 8 7 none).apple.x ∧ (7 : Int) = (initGame 8 7 none).apple.y) →
        g1.snake.segments.length = (initGame 8 7 none).snake.segments.length + 1 ∧
          g1.snake.score = (initGame 8 7 none).snake.score + 1) ∧
      (¬((8 : Int) = (initGame 8 7 none).apple.x ∧ (7 : Int) = (initGame 8 7 none).apple.y) →
        g1.snake.segments.length = (initGame 8 7 none).snake.segments.length ∧
          g1.snake.score = (initGame 8 7 none).snake.score) :=
  growth_law (initGame 8 7 none) [Event.SDL_KEYDOWN Key.SDLK_RIGHT] 3 4
    (Snake.mk [SnakeSegment.mk 8 7] Direction.RIGHT Direction.NONE true 0)
    (SnakeSegment.mk 8 7) [] (by decide) (by decide) rfl

/-- C5, as amended.  Growth scenario: a started snake on [(5,5),(5,6),(5,7)]
heading Up with nothing buffered and the apple on (5,4); one tick returns and
ends with the segments [(5,4),(5,5),(5,6),(5,6)] (the advance drops the old tail
(5,7), the growth step duplicates the new tail (5,6)) and the score one above
the prior score. -/
theorem growth_scenario (prior high : Int) (running : Bool) (file : Option Int)
    (r1 r2 : Nat) :
    ∃ g1,
      tick
        { snake := Snake.mk [SnakeSegment.mk 5 5, SnakeSegment.mk 5 6, SnakeSegment.mk 5 7]
            Direction.UP Direction.NONE true prior
          apple := Apple.mk 5 4
          running := running
          currentHighScore := high
          highscoreFile := file } r1 r2 = some g1 ∧
      g1.snake.segments =
        [SnakeSegment.mk 5 4, SnakeSegment.mk 5 5, SnakeSegment.mk 5 6, SnakeSegment.mk 5 6] ∧
      g1.snake.score = prior + 1 ∧
      g1.running = running := by
  by_cases h : prior + 1 > high
  · exact ⟨_, by simp [tick, Snake.move, Snake.applyNextDirection, stepHead,
      Snake.checkCollision, selfCollision, appleCheck, h]; rfl, rfl, rfl, rfl⟩
  · exact ⟨_, by simp [tick, Snake.move, Snake.applyNextDirection, stepHead,
      Snake.checkCollision, selfCollision, appleCheck, h]; rfl, rfl, rfl, rfl⟩

/-- C5 as stated fails: from segments [(5,5),(5,6),(5,7)], direction Up, apple on
(5,4) and score 0, the tick does not end with segments [(5,4),(5,5),(5,6),(5,7)];
it ends with [(5,4),(5,5),(5,6),(5,6)]. -/
theorem growth_scenario_as_stated_fails :
    (∃ g1,
      tick
        { snake := Snake.mk [SnakeSegment.mk 5 5, SnakeSegment.mk 5 6, SnakeSegment.mk 5 7]
            Direction.UP Direction.NONE true 0
          apple := Apple.mk 5 4
          running := true
          currentHighScore := 0
          highscoreFile := none } 0 0 = some g1 ∧
      g1.snake.segments =
        [SnakeSegment.mk 5 4, SnakeSegment.mk 5 5, SnakeSegment.mk 5 6, SnakeSegment.mk 5 6] ∧
      g1.snake.score = 0 + 1) ∧
    ¬ ∃ g1,
      tick
        { snake := Snake.mk [SnakeSegment.mk 5 5, SnakeSegment.mk 5 6, SnakeSegment.mk 5 7]
            Direction.UP Direction.NONE true 0
          apple := Apple.mk 5 4
          running := true
          currentHighScore := 0
          highscoreFile := none } 0 0 = some g1 ∧
      g1.snake.segments =
        [SnakeSegment.mk 5 4, SnakeSegment.mk 5 5, SnakeSegment.mk 5 6, SnakeSegment.mk 5 7] ∧
      g1.snake.score = 0 + 1 := by
  have hrun :
      tick
        { snake := Snake.mk [SnakeSegment.mk 5 5, SnakeSegment.mk 5 6, SnakeSegment.mk 5 7]
            Direction.UP Direction.NONE true 0
          apple := Apple.mk 5 4
          running := true
          currentHighScore := 0
          highscoreFile := none } 0 0
        = some
          { snake := Snake.mk
              [SnakeSegment.mk 5 4, SnakeSegment.mk 5 5, SnakeSegment.mk 5 6, SnakeSegment.mk 5 6]
              Direction.UP Direction.NONE true 1
            apple := Apple.mk 0 0
            running := true
            currentHighScore := 1
            highscoreFile := some 1 } := by decide
  refine ⟨⟨_, hrun, rfl, rfl⟩, ?_⟩
  rintro ⟨g1, hg1, hsegs, -⟩
  rw [hrun] at hg1
  cases hg1
  revert hsegs
  decide

/-- C6, as amended.  No-overlap invariant.  In every run from the initial state,
with any events and any apple positions, every iteration returns, and if the
snake at the end of the tick holds the same coordinates at two distinct indices
i < j, then either a collision was detected in that tick and the game ended, or
the apple was eaten in that tick and the two are the last two segments: the
tail and the copy of it that the growth step appended. -/
theorem no_overlap_unless_collision_or_growth (g : Game) (hr : Reachable g)
    (hrun : g.running = true) (events : List Event) (r1 r2 : Nat) :
    ∃ g1, iteration g events r1 r2 = some g1 ∧
      ∀ i j a, i < j → g1.snake.segments[i]? = some a →
        g1.snake.segments[j]? = some a →
        (collisionDetected (pollEvents g events) = true ∧ g1.running = false) ∨
          (appleEaten (pollEvents g events) = true ∧
            j + 1 = g1.snake.segments.length ∧ i + 1 = j) := by
  obtain ⟨g1, hg1, hcases⟩ :=
    tick_inv (pollEvents g events) r1 r2
      (pollEvents_inv events g (reachable_inv g hr hrun))
  refine ⟨g1, hg1, fun i j a hij hi hj => ?_⟩
  rcases hcases with hc | ⟨-, -, -, hdup⟩
  · exact Or.inl hc
  · exact Or.inr (hdup i j a hij hi hj)

/-- Witness for C6: the first iteration after the key Right with the apple on (8,7). -/
theorem no_overlap_unless_collision_or_growth_witness :
    ∃ g1, iteration (initGame 8 7 none) [Event.SDL_KEYDOWN Key.SDLK_RIGHT] 3 4 = some g1 ∧
      ∀ i j a, i < j → g1.snake.segments[i]? = some a →
        g1.snake.segments[j]? = some a →
        (collisionDetected
            (pollEvents (initGame 8 7 none) [Event.SDL_KEYDOWN Key.SDLK_RIGHT]) = true ∧
          g1.running = false) ∨
          (appleEaten
              (pollEvents (initGame 8 7 none) [Event.SDL_KEYDOWN Key.SDLK_RIGHT]) = true ∧
            j + 1 = g1.snake.segments.length ∧ i + 1 = j) :=
  no_overlap_unless_collision_or_growth (initGame 8 7 none) (Reachable.init 8 7 none) rfl
    [Event.SDL_KEYDOWN Key.SDLK_RIGHT] 3 4

/-- C6 as stated fails: from the initial state with the apple on (8,7), the
iteration that handles the key Right ends with the segments [(8,7),(8,7)], two
indices with identical coordinates, while no collision was detected and the
game goes on. -/
theorem no_overlap_as_stated_fails :
    Reachable (initGame 8 7 none) ∧
    (initGame 8 7 none).running = true ∧
    iteration (initGame 8 7 none) [Event.SDL_KEYDOWN Key.SDLK_RIGHT] 3 4
      = some
        { snake := Snake.mk [SnakeSegment.mk 8 7, SnakeSegment.mk 8 7]
            Direction.RIGHT Direction.NONE true 1
          apple := Apple.mk 3 4
          running := true
          currentHighScore := 1
          highscoreFile := some 1 } ∧
    [SnakeSegment.mk 8 7, SnakeSegment.mk 8 7][0]? = some (SnakeSegment.mk 8 7) ∧
    [SnakeSegment.mk 8 7, SnakeSegment.mk 8 7][1]? = some (SnakeSegment.mk 8 7) ∧
    collisionDetected
      (pollEvents (initGame 8 7 none) [Event.SDL_KEYDOWN Key.SDLK_RIGHT]) = false :=
  ⟨Reachable.init 8 7 none, rfl, by decide, rfl, rfl, by decide⟩

/-- C7, as amended.  For a started snake whose active direction is `d`, handling
the key for that same direction leaves direction, segments, hasStarted and score
as they were and sets nextDirection to `d`; so nextDirection is unchanged
exactly when it already was `d`, and when nothing was buffered the following
advance gives the same snake as without the key. -/
theorem same_direction_key_buffers (s : Snake) (d : Direction)
    (hd : d ≠ Direction.NONE) (hst : s.hasStarted = true) (hs : s.direction = d) :
    handleKey s (keyOf d) = { s with nextDirection := d } ∧
      ((handleKey s (keyOf d)).direction = s.direction) ∧
      ((handleKey s (keyOf d)).nextDirection = s.nextDirection ↔ s.nextDirection = d) ∧
      (s.nextDirection = Direction.NONE → (handleKey s (keyOf d)).move = s.move) := by
  have hkey : handleKey s (keyOf d) = { s with nextDirection := d } := by
    cases d <;> simp_all [handleKey, keyOf]
  rw [hkey]
  refine ⟨rfl, rfl, ⟨fun h => h.symm, fun h => h.symm⟩, fun hn => ?_⟩
  cases s
  simp only at hst hs hn
  subst hst hs hn
  simp [Snake.move, Snake.applyNextDirection, hd]

/-- Witness for C7: a started snake heading Right with nothing buffered. -/
theorem same_direction_key_buffers_witness :
    handleKey (Snake.mk [SnakeSegment.mk 8 7] Direction.RIGHT Direction.NONE true 0)
        (keyOf Direction.RIGHT)
      = { Snake.mk [SnakeSegment.mk 8 7] Direction.RIGHT Direction.NONE true 0 with
          nextDirection := Direction.RIGHT } ∧
      ((handleKey (Snake.mk [SnakeSegment.mk 8 7] Direction.RIGHT Direction.NONE true 0)
          (keyOf Direction.RIGHT)).direction = Direction.RIGHT) ∧
      ((handleKey (Snake.mk [SnakeSegment.mk 8 7] Direction.RIGHT Direction.NONE true 0)
          (keyOf Direction.RIGHT)).nextDirection = Direction.NONE ↔
        Direction.NONE = Direction.RIGHT) ∧
      (Direction.NONE = Direction.NONE →
        (handleKey (Snake.mk [SnakeSegment.mk 8 7] Direction.RIGHT Direction.NONE true 0)
          (keyOf Direction.RIGHT)).move
        = (Snake.mk [SnakeSegment.mk 8 7] Direction.RIGHT Direction.NONE true 0).move) :=
  same_direction_key_buffers
    (Snake.mk [SnakeSegment.mk 8 7] Direction.RIGHT Direction.NONE true 0)
    Direction.RIGHT (by decide) rfl rfl

/-- C7 as stated fails: a started snake heading Right with nothing buffered gets
nextDirection = RIGHT from the key Right, so nextDirection is not as it was. -/
theorem same_direction_key_as_stated_fails :
    (Snake.mk [SnakeSegment.mk 8 7] Direction.RIGHT Direction.NONE true 0).hasStarted = true ∧
    (Snake.mk [SnakeSegment.mk 8 7] Direction.RIGHT Direction.NONE true 0).direction
      = Direction.RIGHT ∧
    (handleKey (Snake.mk [SnakeSegment.mk 8 7] Direction.RIGHT Direction.NONE true 0)
        (keyOf Direction.RIGHT)).nextDirection = Direction.RIGHT ∧
    ¬((handleKey (Snake.mk [SnakeSegment.mk 8 7] Direction.RIGHT Direction.NONE true 0)
          (keyOf Direction.RIGHT)).direction
        = (Snake.mk [SnakeSegment.mk 8 7] Direction.RIGHT Direction.NONE true 0).direction ∧
      (handleKey (Snake.mk [SnakeSegment.mk 8 7] Direction.RIGHT Direction.NONE true 0)
          (keyOf Direction.RIGHT)).nextDirection
        = (Snake.mk [SnakeSegment.mk 8 7] Direction.RIGHT Direction.NONE true 0).nextDirection) := by
  decide

/-- C8 fails on the code.  With the first apple on the start cell (7,7), whatever
the stored high score and the later random draws, and with no input at all: the
first iteration grows the idle snake to [(7,7),(7,7)] with score 1, and the
second iteration detects a collision and ends the game, the snake still not
started and without a direction. -/
theorem idle_game_ends_when_apple_on_start_cell (file : Option Int) (r1 r2 r3 r4 : Nat) :
    ∃ g1 g2,
      iteration (initGame 7 7 file) [] r1 r2 = some g1 ∧
      g1.running = true ∧
      g1.snake.hasStarted = false ∧
      g1.snake.segments = [SnakeSegment.mk 7 7, SnakeSegment.mk 7 7] ∧
      g1.snake.score = 1 ∧
      iteration g1 [] r3 r4 = some g2 ∧
      collisionDetected g1 = true ∧
      g2.running = false ∧
      g2.snake.hasStarted = false ∧
      g2.snake.direction = Direction.NONE := by
  have hmove : (initGame 7 7 file).snake.move = some Snake.new := rfl
  have hcol : Snake.new.checkCollision = some (false, Snake.new) := by decide
  obtain ⟨g1, hg1, hsn, hrun⟩ :=
    appleCheck_eaten (initGame 7 7 file) Snake.new r1 r2 (SnakeSegment.mk 7 7) [] rfl
      ⟨rfl, rfl⟩
  rw [← tick_of_no_collision (initGame 7 7 file) r1 r2 Snake.new hmove hcol] at hg1
  have hsn1 : g1.snake
      = Snake.mk [SnakeSegment.mk 7 7, SnakeSegment.mk 7 7]
          Direction.NONE Direction.NONE false 1 := by
    rw [hsn]; rfl
  have hmove2 : g1.snake.move = some g1.snake := by rw [hsn1]; rfl
  have hcol2 : g1.snake.checkCollision = some (true, g1.snake) := by rw [hsn1]; decide
  refine ⟨g1, { g1 with
      snake := g1.snake
      highscoreFile := saveHighScore g1.snake.score g1.highscoreFile
      running := false }, hg1, hrun, by rw [hsn1], by rw [hsn1], by rw [hsn1], ?_, ?_,
    rfl, by rw [hsn1], by rw [hsn1]⟩
  · show tick g1 r3 r4 = _
    simp only [tick, hmove2, hcol2]
  · simp [collisionDetected, hmove2, hcol2]

/-- C9. Boundary: the fresh snake on (7,7) with first key Right and nothing else:
`checkCollision` answers false after each of the advances 1 to 7, where the head
is at x = 8, ..., 14, and true after advance 8, where the head is at x = 15. -/
theorem wall_collision_on_eighth_advance :
    [1, 2, 3, 4, 5, 6, 7, 8].map
        (fun n => collisionAfter n (handleKey Snake.new Key.SDLK_RIGHT))
      = [some false, some false, some false, some false, some false, some false,
          some false, some true] ∧
    [1, 2, 3, 4, 5, 6, 7, 8].map
        (fun n => headAfter n (handleKey Snake.new Key.SDLK_RIGHT))
      = [some (SnakeSegment.mk 8 7), some (SnakeSegment.mk 9 7),
          some (SnakeSegment.mk 10 7), some (SnakeSegment.mk 11 7),
          some (SnakeSegment.mk 12 7), some (SnakeSegment.mk 13 7),
          some (SnakeSegment.mk 14 7), some (SnakeSegment.mk 15 7)] := by
  decide

/-- C10. First-input scenario: on the fresh snake the key Down gives
hasStarted = true, direction = DOWN and nextDirection = NONE, the segments still
[(7,7)]; one advance after that gives the segments [(7,8)], of length 1. -/
theorem first_input_down :
    handleKey Snake.new Key.SDLK_DOWN
      = Snake.mk [SnakeSegment.mk 7 7] Direction.DOWN Direction.NONE true 0 ∧
    (handleKey Snake.new Key.SDLK_DOWN).move
      = some (Snake.mk [SnakeSegment.mk 7 8] Direction.DOWN Direction.NONE true 0) := by
  decide

/-- C11. High-score store, with the file as explicit state and writes
succeeding.  From the empty store, after the calls `saveHighScore(c)` for any
finite list of scores, `getHighScore` returns the maximum of 0 and all the
scores saved.  In any store, `saveHighScore(c)` leaves the content as it was
unless `c` strictly exceeds what `getHighScore` returned before the call, and
the value `getHighScore` returns never decreases. -/
theorem highscore_store_monotone (scores : List Int) (c : Int) (file : Option Int) :
    getHighScore (saveAll scores none) = scores.foldl max 0 ∧
      (∀ v ∈ scores, v ≤ getHighScore (saveAll scores none)) ∧
      0 ≤ getHighScore (saveAll scores none) ∧
      (getHighScore (saveAll scores none) = 0 ∨
        getHighScore (saveAll scores none) ∈ scores) ∧
      (saveHighScore c file ≠ file → c > getHighScore file) ∧
      (c > getHighScore file → saveHighScore c file = some c) ∧
      getHighScore file ≤ getHighScore (saveHighScore c file) := by
  have hfold : ∀ (l : List Int) (a : Int),
      a ≤ l.foldl max a ∧ (∀ v ∈ l, v ≤ l.foldl max a) ∧
        (l.foldl max a = a ∨ l.foldl max a ∈ l) := by
    intro l
    induction l with
    | nil => intro a; simp
    | cons b rest ih =>
      intro a
      obtain ⟨h1, h2, h3⟩ := ih (max a b)
      simp only [List.foldl_cons, List.mem_cons]
      refine ⟨le_trans (le_max_left a b) h1, ?_, ?_⟩
      · intro v hv
        rcases hv with rfl | hv
        · exact le_trans (le_max_right a v) h1
        · exact h2 v hv
      · rcases h3 with h3 | h3
        · rw [h3]
          rcases max_choice a b with e | e
          · exact Or.inl e
          · exact Or.inr (Or.inl e)
        · exact Or.inr (Or.inr h3)
  have hget := getHighScore_saveAll scores none
  have h0 : getHighScore none = 0 := rfl
  rw [h0] at hget
  obtain ⟨h1, h2, h3⟩ := hfold scores 0
  rw [hget]
  refine ⟨rfl, h2, h1, h3, ?_, ?_, ?_⟩
  · intro hne
    by_contra hle
    exact hne (by simp [saveHighScore, hle])
  · intro hgt
    simp [saveHighScore, hgt]
  · rw [getHighScore_saveHighScore]
    exact le_max_left _ _

/-- Witness for C11: the scores 3, -2, 5, 4 saved into the empty store, then 6
saved over a stored 5. -/
theorem highscore_store_monotone_witness :
    getHighScore (saveAll [3, -2, 5, 4] none) = [3, -2, 5, 4].foldl max 0 ∧
      (∀ v ∈ [3, -2, 5, 4], v ≤ getHighScore (saveAll [3, -2, 5, 4] none)) ∧
      0 ≤ getHighScore (saveAll [3, -2, 5, 4] none) ∧
      (getHighScore (saveAll [3, -2, 5, 4] none) = 0 ∨
        getHighScore (saveAll [3, -2, 5, 4] none) ∈ [3, -2, 5, 4]) ∧
      (saveHighScore 6 (some 5) ≠ some 5 → 6 > getHighScore (some 5)) ∧
      (6 > getHighScore (some 5) → saveHighScore 6 (some 5) = some 6) ∧
      getHighScore (some 5) ≤ getHighScore (saveHighScore 6 (some 5)) :=
  highscore_store_monotone [3, -2, 5, 4] 6 (some 5)

/-- C15. Collision ends the tick before the apple check.  When `checkCollision`
is true after the advance, the tick returns with running = false and with the
snake exactly as the advance left it (segments and score), the in-memory high
score and the apple where they were; the head being on the apple changes
nothing. -/
theorem collision_skips_apple_check (g : Game) (r1 r2 : Nat) (moved : Snake)
    (hmove : g.snake.move = some moved)
    (hcol : moved.checkCollision = some (true, moved)) :
    ∃ g1, tick g r1 r2 = some g1 ∧
      g1.running = false ∧
      g1.snake = moved ∧
      g1.snake.score = g.snake.score ∧
      g1.currentHighScore = g.currentHighScore ∧
      g1.apple = g.apple ∧
      g1.highscoreFile = saveHighScore moved.score g.highscoreFile := by
  refine ⟨{ g with
      snake := moved
      highscoreFile := saveHighScore moved.score g.highscoreFile
      running := false }, by simp only [tick, hmove, hcol], rfl, rfl, ?_, rfl, rfl, rfl⟩
  exact (move_frame g.snake moved hmove).2.1

/-- Witness for C15: a snake that walks into the right wall on the cell of the
apple, (15,7) being off the grid; the apple stays, the score stays. -/
theorem collision_skips_apple_check_witness :
    ∃ g1,
      tick
        { snake := Snake.mk [SnakeSegment.mk 14 7] Direction.RIGHT Direction.NONE true 0
          apple := Apple.mk 15 7
          running := true
          currentHighScore := 0
          highscoreFile := none } 1 2 = some g1 ∧
      g1.running = false ∧
      g1.snake = Snake.mk [SnakeSegment.mk 15 7] Direction.RIGHT Direction.NONE true 0 ∧
      g1.snake.score = 0 ∧
      g1.currentHighScore = 0 ∧
      g1.apple = Apple.mk 15 7 ∧
      g1.highscoreFile = saveHighScore 0 none :=
  collision_skips_apple_check
    { snake := Snake.mk [SnakeSegment.mk 14 7] Direction.RIGHT Direction.NONE true 0
      apple := Apple.mk 15 7
      running := true
      currentHighScore := 0
      highscoreFile := none } 1 2
    (Snake.mk [SnakeSegment.mk 15 7] Direction.RIGHT Direction.NONE true 0)
    (by decide) (by decide)

/-- C12. Non-empty snake.  In every state the main loop passes through, the
initial one included, the segment list has length at least 1; the advance from
there returns and leaves at least one segment, `checkCollision` returns on it,
and the whole tick, growth step included, returns and leaves at least one
segment.  So `segments[0]` and `segments.back()` are defined wherever read. -/
theorem snake_never_empty (g : Game) (hv : Visited g) (r1 r2 : Nat) :
    1 ≤ g.snake.segments.length ∧
      ∃ moved g1, g.snake.move = some moved ∧ 1 ≤ moved.segments.length ∧
        (∃ b, moved.checkCollision = some (b, moved)) ∧
        tick g r1 r2 = some g1 ∧ 1 ≤ g1.snake.segments.length := by
  have hinv := visited_full g hv
  obtain ⟨moved, g1, hmove, hg1, hinv1, -, -, hne, hcol⟩ := tick_full g r1 r2 hinv
  exact ⟨List.length_pos.2 hinv.1, moved, g1, hmove, List.length_pos.2 hne, hcol, hg1,
    List.length_pos.2 hinv1.1⟩

/-- Witness for C12: the state after the key Right in the first iteration. -/
theorem snake_never_empty_witness :
    1 ≤ (pollEvents (initGame 8 7 none)
        [Event.SDL_KEYDOWN Key.SDLK_RIGHT]).snake.segments.length ∧
      ∃ moved g1,
        (pollEvents (initGame 8 7 none) [Event.SDL_KEYDOWN Key.SDLK_RIGHT]).snake.move
          = some moved ∧
        1 ≤ moved.segments.length ∧
        (∃ b, moved.checkCollision = some (b, moved)) ∧
        tick (pollEvents (initGame 8 7 none) [Event.SDL_KEYDOWN Key.SDLK_RIGHT]) 3 4
          = some g1 ∧
        1 ≤ g1.snake.segments.length :=
  snake_never_empty _
    (Visited.polling (initGame 8 7 none) [Event.SDL_KEYDOWN Key.SDLK_RIGHT]
      (Reachable.init 8 7 none) rfl) 3 4

/-- C14. No reversal.  In every state the main loop passes through,
nextDirection is NONE or is not the opposite of direction.  And for a started
snake about to advance: the advance returns with a direction `m1`, the rest of
the tick returns, and after any events handled in the next iteration the second
advance returns with a direction that is not the opposite of `m1`. -/
theorem no_reversal_between_advances (g : Game) (hv : Visited g) :
    (g.snake.nextDirection = Direction.NONE ∨
        g.snake.nextDirection ≠ opposite g.snake.direction) ∧
      (g.snake.hasStarted = true → ∀ (r1 r2 : Nat) (events : List Event),
        ∃ m1 g1 m2, g.snake.move = some m1 ∧ tick g r1 r2 = some g1 ∧
          (pollEvents g1 events).snake.move = some m2 ∧
          m1.direction ≠ Direction.NONE ∧ m2.direction ≠ Direction.NONE ∧
          m2.direction ≠ opposite m1.direction) := by
  have hinv := visited_full g hv
  refine ⟨hinv.2.2.2.1, fun hst r1 r2 events => ?_⟩
  obtain ⟨m1, g1, hmove, hg1, hinv1, hdir1, hst1, -, -⟩ := tick_full g r1 r2 hinv
  obtain ⟨m1a, hmove1, hsta, -, -, -, hact⟩ := move_full g.snake hinv
  rw [hmove] at hmove1
  cases hmove1
  obtain ⟨hd1, -, -, -, -, -⟩ := hact hst
  have hstg1 : g1.snake.hasStarted = true := by rw [hst1, hsta, hst]
  obtain ⟨hinv2, hkeep⟩ := pollEvents_full events g1 hinv1
  obtain ⟨hst2, hdir2⟩ := hkeep hstg1
  obtain ⟨m2, hmove2, -, -, -, -, hact2⟩ := move_full _ hinv2
  obtain ⟨hd2, -, hopp2, -, -, -⟩ := hact2 hst2
  refine ⟨m1, g1, m2, hmove, hg1, hmove2, hd1, hd2, ?_⟩
  rw [hdir2, hdir1] at hopp2
  exact hopp2

/-- Witness for C14: after the key Right, with Up then Left pressed before the
second advance. -/
theorem no_reversal_between_advances_witness :
    ((pollEvents (initGame 0 0 none)
          [Event.SDL_KEYDOWN Key.SDLK_RIGHT]).snake.nextDirection = Direction.NONE ∨
        (pollEvents (initGame 0 0 none)
          [Event.SDL_KEYDOWN Key.SDLK_RIGHT]).snake.nextDirection ≠
          opposite (pollEvents (initGame 0 0 none)
            [Event.SDL_KEYDOWN Key.SDLK_RIGHT]).snake.direction) ∧
      ((pollEvents (initGame 0 0 none)
          [Event.SDL_KEYDOWN Key.SDLK_RIGHT]).snake.hasStarted = true →
        ∀ (r1 r2 : Nat) (events : List Event),
        ∃ m1 g1 m2,
          (pollEvents (initGame 0 0 none)
            [Event.SDL_KEYDOWN Key.SDLK_RIGHT]).snake.move = some m1 ∧
          tick (pollEvents (initGame 0 0 none) [Event.SDL_KEYDOWN Key.SDLK_RIGHT]) r1 r2
            = some g1 ∧
          (pollEvents g1 events).snake.move = some m2 ∧
          m1.direction ≠ Direction.NONE ∧ m2.direction ≠ Direction.NONE ∧
          m2.direction ≠ opposite m1.direction) :=
  no_reversal_between_advances _
    (Visited.polling (initGame 0 0 none) [Event.SDL_KEYDOWN Key.SDLK_RIGHT]
      (Reachable.init 0 0 none) rfl)

/-- C19. Minimum length for self-collision.  For a started snake in any state
the main loop passes through, the advance returns, does not reverse the
direction, leaves consecutive segments at Manhattan distance exactly 1, and
leaves the head different from the segments at indices 1, 2 and 3 where they
exist; so the self-collision loop of `checkCollision` finds a hit only when the
snake has at least 5 segments. -/
theorem self_collision_needs_five_segments (g : Game) (hv : Visited g)
    (hst : g.snake.hasStarted = true) :
    ∃ moved, g.snake.move = some moved ∧
      moved.direction ≠ opposite g.snake.direction ∧
      List.Chain' adjacent moved.segments ∧
      (∀ k head seg, 1 ≤ k → k ≤ 3 → moved.segments[0]? = some head →
        moved.segments[k]? = some seg → seg ≠ head) ∧
      (∀ head rest, moved.segments = head :: rest → selfCollision head rest = true →
        5 ≤ moved.segments.length) := by
  obtain ⟨moved, hmove, -, -, -, -, hact⟩ := move_full g.snake (visited_full g hv)
  obtain ⟨-, -, hopp, hchain, -, hfresh⟩ := hact hst
  refine ⟨moved, hmove, hopp, hchain, hfresh, fun head rest hseg hself => ?_⟩
  obtain ⟨n, hn⟩ := List.getElem?_of_mem ((selfCollision_iff_mem head rest).1 hself)
  have hk : moved.segments[n + 1]? = some head := by
    rw [hseg, List.getElem?_cons_succ]; exact hn
  have h0 : moved.segments[0]? = some head := by rw [hseg]; simp
  obtain ⟨hlt, -⟩ := List.getElem?_eq_some_iff.1 hk
  by_contra hlen
  exact hfresh (n + 1) head head (by omega) (by omega) h0 hk rfl

/-- Witness for C19: the five-segment snake heading Right, with the key Down
handled before the advance.  The advance gives [(11,8),(11,7),(10,7),(9,7),(8,7)],
where the indices 1, 2 and 3 all exist. -/
theorem self_collision_needs_five_segments_witness :
    (pollEvents fiveSegmentGame [Event.SDL_KEYDOWN Key.SDLK_DOWN]).snake.move
        = some (Snake.mk
          [SnakeSegment.mk 11 8, SnakeSegment.mk 11 7, SnakeSegment.mk 10 7,
            SnakeSegment.mk 9 7, SnakeSegment.mk 8 7]
          Direction.DOWN Direction.NONE true 4) ∧
      ∃ moved,
        (pollEvents fiveSegmentGame [Event.SDL_KEYDOWN Key.SDLK_DOWN]).snake.move
          = some moved ∧
        moved.direction ≠ opposite
          (pollEvents fiveSegmentGame [Event.SDL_KEYDOWN Key.SDLK_DOWN]).snake.direction ∧
        List.Chain' adjacent moved.segments ∧
        (∀ k head seg, 1 ≤ k → k ≤ 3 → moved.segments[0]? = some head →
          moved.segments[k]? = some seg → seg ≠ head) ∧
        (∀ head rest, moved.segments = head :: rest → selfCollision head rest = true →
          5 ≤ moved.segments.length) :=
  ⟨by decide,
    self_collision_needs_five_segments _
      (Visited.polling fiveSegmentGame [Event.SDL_KEYDOWN Key.SDLK_DOWN]
        fiveSegmentGame_reachable rfl) rfl⟩

/-- C16. End-of-session persistence, with the store as explicit state and
writes succeeding.  In a session that found `file0` in the store, when an
iteration detects a collision the tick returns with running = false, the store
is what the game-over call `saveHighScore(score)` makes of it, `getHighScore`
on it gives the maximum of the value at session start and the final score, and
when the value at session start is not negative that call leaves the store as
it was. -/
theorem game_over_persists_high_score (file0 : Option Int) (g : Game)
    (hs : Session file0 g) (hrun : g.running = true)
    (events : List Event) (r1 r2 : Nat)
    (hcol : collisionDetected (pollEvents g events) = true) :
    ∃ g1, iteration g events r1 r2 = some g1 ∧ g1.running = false ∧
      g1.highscoreFile = saveHighScore g1.snake.score g.highscoreFile ∧
      getHighScore g1.highscoreFile = max (getHighScore file0) g1.snake.score ∧
      (0 ≤ getHighScore file0 →
        saveHighScore g1.snake.score g.highscoreFile = g.highscoreFile) := by
  obtain ⟨h1, h2, h3, h4⟩ := session_score_inv file0 g hs hrun
  obtain ⟨-, hsc, -, -, hfile⟩ := pollEvents_frame events g
  have hinv := (pollEvents_full events g
    (reachable_full g (session_reachable file0 g hs))).1
  obtain ⟨moved, -, hmove, -, -, -, -, hne, -⟩ := tick_full (pollEvents g events) r1 r2 hinv
  obtain ⟨head, rest, hseg⟩ := List.exists_cons_of_ne_nil hne
  have hmsc : moved.score = g.snake.score := (move_frame _ moved hmove).2.1.trans hsc
  rcases tick_cases (pollEvents g events) r1 r2 moved head rest hmove hseg with
    ⟨-, -, ht⟩ | ⟨-, hno, -⟩
  · refine ⟨_, ht, rfl, ?_, ?_, ?_⟩
    · show saveHighScore moved.score (pollEvents g events).highscoreFile
        = saveHighScore moved.score g.highscoreFile
      rw [hfile]
    · show getHighScore (saveHighScore moved.score (pollEvents g events).highscoreFile)
        = max (getHighScore file0) moved.score
      rw [hfile, getHighScore_saveHighScore, ← h1, hmsc]
      rcases h3 with e | e
      · rw [e]
      · rw [e, max_self, max_eq_right (by omega)]
    · intro h0
      show saveHighScore moved.score g.highscoreFile = g.highscoreFile
      have hle : ¬ moved.score > getHighScore g.highscoreFile := by
        rw [hmsc, ← h1]
        omega
      simp [saveHighScore, hle]
  · rw [hcol] at hno
    cases hno

/-- Witness for C16: the session with an empty store whose first apple is on
(7,7); the second iteration, without events, detects the collision. -/
theorem game_over_persists_high_score_witness :
    ∃ g1,
      iteration
        (Game.mk (Snake.mk [SnakeSegment.mk 7 7, SnakeSegment.mk 7 7]
          Direction.NONE Direction.NONE false 1) (Apple.mk 0 0) true 1 (some 1))
        [] 0 0 = some g1 ∧
      g1.running = false ∧
      g1.highscoreFile = saveHighScore g1.snake.score (some 1) ∧
      getHighScore g1.highscoreFile = max (getHighScore none) g1.snake.score ∧
      (0 ≤ getHighScore none → saveHighScore g1.snake.score (some 1) = some 1) :=
  game_over_persists_high_score none
    (Game.mk (Snake.mk [SnakeSegment.mk 7 7, SnakeSegment.mk 7 7]
      Direction.NONE Direction.NONE false 1) (Apple.mk 0 0) true 1 (some 1))
    (Session.step (initGame 7 7 none) _ [] 0 0 (Session.init 7 7) rfl (by decide))
    rfl [] 0 0 (by decide)

/-- C17. In-bounds invariant.  In the initial state and after every tick that
leaves the game running, every segment of the snake, not only the head, has
0 <= x < 15 and 0 <= y < 15, whatever the events and the apple positions. -/
theorem segments_stay_in_grid (g : Game) (hr : Reachable g) (hrun : g.running = true) :
    ∀ seg ∈ g.snake.segments, inGrid seg := by
  revert hrun
  induction hr with
  | init r1 r2 file =>
    intro _ seg hseg
    have e : seg = SnakeSegment.mk 7 7 := by simpa [initGame, Snake.new] using hseg
    rw [e]
    exact ⟨by decide, by decide, by decide, by decide⟩
  | step g g1 events r1 r2 hr0 hrun0 hit ih =>
    intro hrun1
    have hold := ih hrun0
    obtain ⟨hsegs, -, -, -, -⟩ := pollEvents_frame events g
    have hinv := (pollEvents_full events g (reachable_full g hr0)).1
    obtain ⟨moved, -, hmove, -, -, -, -, hne, -⟩ :=
      tick_full (pollEvents g events) r1 r2 hinv
    obtain ⟨head, rest, hseg⟩ := List.exists_cons_of_ne_nil hne
    have hmoved : ¬(head.x < 0 ∨ head.x ≥ 15 ∨ head.y < 0 ∨ head.y ≥ 15) →
        ∀ seg ∈ head :: rest, inGrid seg := by
      intro hwall seg hmem
      rcases List.mem_cons.1 hmem with e | hmem1
      · rw [e]
        unfold inGrid
        omega
      · have := move_rest_mem _ moved hmove head rest hseg seg hmem1
        rw [hsegs] at this
        exact hold seg this
    unfold iteration at hit
    rcases tick_cases (pollEvents g events) r1 r2 moved head rest hmove hseg with
      ⟨-, -, ht⟩ | ⟨-, -, hwall, -, ⟨-, ht⟩ | ⟨-, ht⟩⟩
    · rw [hit] at ht
      cases ht
      cases hrun1
    · rw [hit] at ht
      cases ht
      intro seg hmem
      have hmem1 : seg ∈ moved.segments ++ [(head :: rest).getLast (by simp)] := hmem
      rw [hseg] at hmem1
      rcases List.mem_append.1 hmem1 with h1 | h1
      · exact hmoved hwall seg h1
      · rw [List.mem_singleton] at h1
        rw [h1]
        exact hmoved hwall _ (List.getLast_mem _)
    · rw [hit] at ht
      cases ht
      intro seg hmem
      have hmem1 : seg ∈ moved.segments := hmem
      rw [hseg] at hmem1
      exact hmoved hwall seg hmem1

/-- Witness for C17: the state after the first iteration, in which the apple on
(8,7) was eaten; its tail segment (8,7) is on the grid. -/
theorem segments_stay_in_grid_witness :
    (Game.mk (Snake.mk [SnakeSegment.mk 8 7, SnakeSegment.mk 8 7]
        Direction.RIGHT Direction.NONE true 1) (Apple.mk 3 4) true 1 (some 1)).running = true ∧
      inGrid (SnakeSegment.mk 8 7) :=
  ⟨rfl, segments_stay_in_grid
    (Game.mk (Snake.mk [SnakeSegment.mk 8 7, SnakeSegment.mk 8 7]
      Direction.RIGHT Direction.NONE true 1) (Apple.mk 3 4) true 1 (some 1))
    (Reachable.step (initGame 8 7 none) _ [Event.SDL_KEYDOWN Key.SDLK_RIGHT] 3 4
      (Reachable.init 8 7 none) rfl (by decide)) rfl
    (SnakeSegment.mk 8 7) (by decide)⟩

/-- C13. Buffering.  On a started snake a requested direction `d` that is not
the opposite of the current direction sets nextDirection to `d` and leaves
direction, segments, hasStarted and score as they were.  When a sequence of
requests is handled before one advance and `last` is the last of them that is
not the opposite of the current direction, the advance returns with direction
`last`, and its segments are a new head followed by the old segments without
the last one, the new head being the old head moved one cell in direction
`last` (Up: y-1, Down: y+1, Left: x-1, Right: x+1). -/
theorem buffered_direction_is_last_accepted (s : Snake) (d : Direction)
    (hst : s.hasStarted = true) (hd : d ≠ Direction.NONE)
    (hopp : d ≠ opposite s.direction) :
    handleKey s (keyOf d) = { s with nextDirection := d } ∧
      ∀ (ds : List Direction) (last : Direction) (head : SnakeSegment)
        (rest : List SnakeSegment),
        s.direction ≠ Direction.NONE → s.segments = head :: rest →
        (ds.filter
          (fun r => decide (r ≠ Direction.NONE ∧ r ≠ opposite s.direction))).getLast?
            = some last →
        ∃ moved newHead, (List.foldl handleKey s (ds.map keyOf)).move = some moved ∧
          moved.direction = last ∧
          moved.segments = newHead :: s.segments.dropLast ∧
          newHead ≠ head ∧
          (last = Direction.UP → newHead = SnakeSegment.mk head.x (head.y - 1)) ∧
          (last = Direction.DOWN → newHead = SnakeSegment.mk head.x (head.y + 1)) ∧
          (last = Direction.LEFT → newHead = SnakeSegment.mk (head.x - 1) head.y) ∧
          (last = Direction.RIGHT → newHead = SnakeSegment.mk (head.x + 1) head.y) := by
  refine ⟨handleKey_accept s d hst hd hopp, fun ds last head rest hdir hseg hlast => ?_⟩
  have hmem := List.mem_of_getLast?_eq_some hlast
  rw [List.mem_filter] at hmem
  have hlast_ne : last ≠ Direction.NONE := by
    have := hmem.2
    simp only [decide_eq_true_eq] at this
    exact this.1
  rw [handleKeys_started ds s hst, hlast]
  have happ : ({ s with nextDirection := Option.getD (some last) s.nextDirection } :
      Snake).applyNextDirection
        = { s with direction := last, nextDirection := Direction.NONE } := by
    simp [Snake.applyNextDirection, hlast_ne]
  refine ⟨_, stepHead last head.x head.y, move_of_started _ head rest hst hdir hseg,
    ?_, ?_, stepHead_ne last head hlast_ne, ?_, ?_, ?_, ?_⟩
  · rw [happ]
  · rw [happ, hseg]
  · intro e; rw [e]; rfl
  · intro e; rw [e]; rfl
  · intro e; rw [e]; rfl
  · intro e; rw [e]; rfl

/-- Witness for C13: a snake on [(8,7),(7,7)] heading Right receives Up, Left
(rejected), Down; the advance goes Down and gives [(8,8),(8,7)]. -/
theorem buffered_direction_is_last_accepted_witness :
    handleKey (Snake.mk [SnakeSegment.mk 8 7, SnakeSegment.mk 7 7]
        Direction.RIGHT Direction.NONE true 1) (keyOf Direction.UP)
      = { Snake.mk [SnakeSegment.mk 8 7, SnakeSegment.mk 7 7]
            Direction.RIGHT Direction.NONE true 1 with nextDirection := Direction.UP } ∧
      (List.foldl handleKey
          (Snake.mk [SnakeSegment.mk 8 7, SnakeSegment.mk 7 7]
            Direction.RIGHT Direction.NONE true 1)
          ([Direction.UP, Direction.LEFT, Direction.DOWN].map keyOf)).move
        = some (Snake.mk [SnakeSegment.mk 8 8, SnakeSegment.mk 8 7]
            Direction.DOWN Direction.NONE true 1) ∧
      ∃ moved newHead,
        (List.foldl handleKey
          (Snake.mk [SnakeSegment.mk 8 7, SnakeSegment.mk 7 7]
            Direction.RIGHT Direction.NONE true 1)
          ([Direction.UP, Direction.LEFT, Direction.DOWN].map keyOf)).move = some moved ∧
        moved.direction = Direction.DOWN ∧
        moved.segments = newHead :: [SnakeSegment.mk 8 7, SnakeSegment.mk 7 7].dropLast ∧
        newHead ≠ SnakeSegment.mk 8 7 ∧
        (Direction.DOWN = Direction.UP → newHead = SnakeSegment.mk 8 (7 - 1)) ∧
        (Direction.DOWN = Direction.DOWN → newHead = SnakeSegment.mk 8 (7 + 1)) ∧
        (Direction.DOWN = Direction.LEFT → newHead = SnakeSegment.mk (8 - 1) 7) ∧
        (Direction.DOWN = Direction.RIGHT → newHead = SnakeSegment.mk (8 + 1) 7) :=
  ⟨(buffered_direction_is_last_accepted
      (Snake.mk [SnakeSegment.mk 8 7, SnakeSegment.mk 7 7]
        Direction.RIGHT Direction.NONE true 1)
      Direction.UP rfl (by decide) (by decide)).1,
    by decide,
    (buffered_direction_is_last_accepted
      (Snake.mk [SnakeSegment.mk 8 7, SnakeSegment.mk 7 7]
        Direction.RIGHT Direction.NONE true 1)
      Direction.UP rfl (by decide) (by decide)).2
      [Direction.UP, Direction.LEFT, Direction.DOWN] Direction.DOWN
      (SnakeSegment.mk 8 7) [SnakeSegment.mk 7 7] (by decide) rfl (by decide)⟩

end CPPSnake
